import Mathlib

/-!
Verification development for the Parallelcoin (pod) network-synchronization
core: the connection manager (pkg connmgr), the peer sync manager
(pkg netsync, manager.go) and the mining controller
(cmd/kopach/control/controller.go).  Each Go function that a claim touches
is embedded as an executable Lean definition operating on explicit state
records; external collaborators (blockchain, mempool, peers, sockets) are
passed in as oracle records, mirroring how the Go code treats them as
opaque services.
-/

namespace Pod

/-- Block and transaction hashes are opaque identifiers to the sync core;
we model them as natural numbers. -/
abbrev Hash := Nat

/-- Peers are opaque handles owned by the peer package; the sync manager
keys its per-peer state on them.  We model a peer handle as an identifier. -/
abbrev PeerId := Nat

end Pod

namespace Control

/-!
Embedding of cmd/kopach/control/controller.go: the wallet-RPC watcher
backoff loop (walletRPCWatcher) and the work-template staleness logic
(updateAndSendWork).
-/

/-- One failure step of the wallet watcher backoff, in whole seconds.
From walletRPCWatcher: after sleeping for backoffTime, the code runs
if backoffTime <= time.Second*5 then backoffTime += time.Second. -/
def nextBackoff (b : Nat) : Nat :=
  if b ≤ 5 then b + 1 else b

/-- The value of backoffTime (in seconds) after n increments, starting
from the initial assignment backoffTime := time.Second in
walletRPCWatcher. -/
def backoffAfter : Nat → Nat
  | 0 => 1
  | n + 1 => nextBackoff (backoffAfter n)

/-- The sleep duration (seconds) the watcher waits after its k-th
consecutive connection failure, k ≥ 1: the wait uses the backoff value
current at that failure, which has been incremented k - 1 times. -/
def waitAfterFailures (k : Nat) : Nat :=
  backoffAfter (k - 1)

/-- On a successful connection walletRPCWatcher resets backoffTime to
one second (backoffTime = time.Second). -/
def backoffOnSuccess : Nat := 1

/-- State of the controller fields read and written by updateAndSendWork.
oldBlocks is an atomic.Value holding the last broadcast shard set; the
type assertion oB, ok := Load().([][]byte) fails (ok = false) when nothing
was ever stored, which we model as none.  Timestamps are UnixNano values. -/
structure WorkState where
  oldBlocks : Option (List Nat)
  lastTxUpdate : Int
  lastGenerated : Int
deriving DecidableEq

/-- External inputs read by updateAndSendWork: the mempool tx-source
last-updated timestamp and the current time, both UnixNano. -/
structure WorkEnv where
  txSourceLastUpdated : Int
  now : Int
deriving DecidableEq

/-- int64(time.Minute) in nanoseconds. -/
def minuteNanos : Int := 60000000000

/-- Embedding of Controller.updateAndSendWork.  Returns (getNew, sent,
newState): getNew is the staleness flag computed by the switch statement;
sent is the shard set passed to SendShards(job.Magic, oB); newState holds
the stored-back oldBlocks and the (possibly refreshed) timestamps.  In the
source the regeneration body guarded by getNew is commented out, so the
function always sends and stores the previously cached oB. -/
def updateAndSendWork (env : WorkEnv) (s : WorkState) :
    Bool × Option (List Nat) × WorkState :=
  let (getNew, s1) :=
    match s.oldBlocks with
    | none => (true, s)
    | some oB =>
      if oB.length = 0 then (true, s)
      else if s.lastTxUpdate ≠ env.txSourceLastUpdated ∧
          env.now > s.lastGenerated + minuteNanos then
        (true, { s with lastTxUpdate := env.now, lastGenerated := env.now })
      else (false, s)
  -- if getNew { }: the template regeneration call is commented out in the
  -- source, so the flag has no effect on what is sent.
  let _ := getNew
  let sent := s.oldBlocks
  (getNew, sent, { s1 with oldBlocks := s.oldBlocks })

end Control

namespace Connmgr

/-!
Embedding of pkg connmgr: the ConnReq state machine and the
handleDisconnected case of ConnManager.connHandler, which backs both
Disconnect (retry = true) and Remove (retry = false).
-/

/-- maxFailedAttempts from connmgr. -/
def maxFailedAttempts : Nat := 3

/-- ConnState from connmgr: Pending, Failing, Canceled, Established,
Disconnected. -/
inductive ConnState where
  | pending
  | failing
  | canceled
  | established
  | disconnected
deriving DecidableEq

/-- ConnReq: a request for one outbound connection. -/
structure ConnReq where
  id : Nat
  permanent : Bool
  connState : ConnState
  retryCount : Nat
deriving DecidableEq

/-- The retry action scheduled by handleFailedConn. -/
inductive RetryAction where
  | noAction
  | reconnectAfter (delaySeconds : Nat)
  | newConnReqDelayed (delaySeconds : Nat)
  | newConnReqNow
deriving DecidableEq

/-- ConnManager state owned by the connHandler goroutine: the pending and
conns maps (modelled as association lists keyed by request id), the
failedAttempts counter, and the relevant configuration. -/
structure CMState where
  pending : List (Nat × ConnReq)
  conns : List (Nat × ConnReq)
  failedAttempts : Nat
  targetOutbound : Nat
  retryDurationSeconds : Nat
  maxRetryDurationSeconds : Nat
  getNewAddressConfigured : Bool
  stopped : Bool
deriving DecidableEq

/-- Embedding of ConnManager.handleFailedConn: for a permanent request the
retry count is bumped and a reconnect is scheduled after
min(retryCount * RetryDuration, maxRetryDuration); for a non-permanent
request with an address source, failedAttempts is bumped and a NewConnReq
is scheduled, delayed by RetryDuration once failedAttempts reaches
maxFailedAttempts. -/
def handleFailedConn (cm : CMState) (c : ConnReq) : CMState × ConnReq × RetryAction :=
  if cm.stopped then (cm, c, .noAction)
  else if c.permanent then
    let c1 := { c with retryCount := c.retryCount + 1 }
    let d := min (c1.retryCount * cm.retryDurationSeconds) cm.maxRetryDurationSeconds
    (cm, c1, .reconnectAfter d)
  else if cm.getNewAddressConfigured then
    let cm1 := { cm with failedAttempts := cm.failedAttempts + 1 }
    if cm1.failedAttempts ≥ maxFailedAttempts then
      (cm1, c, .newConnReqDelayed cm.retryDurationSeconds)
    else (cm1, c, .newConnReqNow)
  else (cm, c, .noAction)

/-- Observable effects of one handleDisconnected dispatch. -/
structure DiscFx where
  closedConn : Bool
  onDisconnectionFired : Bool
  retryAction : RetryAction
  /-- The final record of the affected request, if one was found. -/
  reqFinal : Option ConnReq
deriving DecidableEq

/-- Remove an id from an association list. -/
def removeId (l : List (Nat × ConnReq)) (id : Nat) : List (Nat × ConnReq) :=
  l.filter (fun q => q.1 ≠ id)

/-- Embedding of the handleDisconnected case of ConnManager.connHandler.
retry = true corresponds to Disconnect, retry = false to Remove.  An id
found in conns is removed, its socket closed and OnDisconnection fired;
with retry = false its state becomes Disconnected, otherwise it may be
re-registered as Pending and a retry scheduled.  An id found only in
pending is marked Canceled and dropped. -/
def handleDisconnected (cm : CMState) (id : Nat) (retry : Bool) :
    CMState × DiscFx :=
  match List.lookup id cm.conns with
  | some connReq =>
    let cm1 := { cm with conns := removeId cm.conns id }
    -- connReq.conn is closed and Cfg.OnDisconnection fired here.
    if ¬retry then
      let cFinal := { connReq with connState := .disconnected }
      (cm1, ⟨true, true, .noAction, some cFinal⟩)
    else if cm1.conns.length < cm1.targetOutbound ∨ connReq.permanent then
      let cPend := { connReq with connState := .pending }
      let cm2 := { cm1 with pending := (id, cPend) :: cm1.pending }
      let (cm3, cRetried, act) := handleFailedConn cm2 cPend
      (cm3, ⟨true, true, act, some cRetried⟩)
    else (cm1, ⟨true, true, .noAction, some connReq⟩)
  | none =>
    match List.lookup id cm.pending with
    | some connReq =>
      let cFinal := { connReq with connState := .canceled }
      (⟨removeId cm.pending id, cm.conns, cm.failedAttempts, cm.targetOutbound,
        cm.retryDurationSeconds, cm.maxRetryDurationSeconds,
        cm.getNewAddressConfigured, cm.stopped⟩,
       ⟨false, false, .noAction, some cFinal⟩)
    | none => (cm, ⟨false, false, .noAction, none⟩)

/-- Embedding of ConnManager.Remove: unless the manager is stopped, it
dispatches handleDisconnected with retry = false. -/
def Remove (cm : CMState) (id : Nat) : CMState × DiscFx :=
  if cm.stopped then (cm, ⟨false, false, .noAction, none⟩)
  else handleDisconnected cm id false

/-- Embedding of ConnManager.Disconnect: unless the manager is stopped, it
dispatches handleDisconnected with retry = true. -/
def Disconnect (cm : CMState) (id : Nat) : CMState × DiscFx :=
  if cm.stopped then (cm, ⟨false, false, .noAction, none⟩)
  else handleDisconnected cm id true

end Connmgr

namespace Netsync

open Pod

/-!
Embedding of pkg/netsync/manager.go: the SyncManager state and the
handlers run by the single blockHandler goroutine.
-/

/-- Inventory vector types used by the sync manager (witness variants are
commented out in the source and out of scope). -/
inductive InvType where
  | block
  | tx
  | other
deriving DecidableEq

/-- wire.InvVect: an inventory vector. -/
structure InvVect where
  invType : InvType
  hash : Hash
deriving DecidableEq

/-- headerNode: a node of the headers-first header list. -/
structure HeaderNode where
  height : Int
  hash : Hash
deriving DecidableEq

/-- chaincfg.Checkpoint: a height/hash trust anchor. -/
structure Checkpoint where
  height : Int
  hash : Hash
deriving DecidableEq

/-- A wire block header as seen by handleHeadersMsg: its previous-block
hash and its own block hash (BlockHash() is a pure function of the
header, carried here as a field). -/
structure Header where
  prevBlock : Hash
  hashSelf : Hash
deriving DecidableEq

/-- A transaction as the sync manager sees it.  cbHeight carries the
result of blockchain.ExtractCoinbaseHeight on this transaction (an
external pure function of the script; none models an extraction error). -/
structure Tx where
  hash : Hash
  cbHeight : Option Int
deriving DecidableEq

/-- A block message payload: its hash, its header version and its
transaction list. -/
structure Block where
  hash : Hash
  headerVersion : Int
  txs : List Tx
deriving DecidableEq

/-- Result of chain.ProcessBlock: (isMainChain, isOrphan) on success, or an
error that is either a blockchain.RuleError or another failure, possibly a
database.DBError with code ErrCorruption. -/
inductive PBResult where
  | ok (isMainChain : Bool) (isOrphan : Bool)
  | err (isRuleError : Bool) (isCorruption : Bool)
deriving DecidableEq

/-- Result of mempool.ProcessTransaction: accepted transaction hashes, or
an error that is or is not a mempool.RuleError. -/
inductive TxResult where
  | ok (accepted : List Hash)
  | err (isRuleError : Bool)
deriving DecidableEq

/-- Oracle for the external collaborators consumed by the sync manager:
the blockchain, the mempool and the remote peers.  Each field corresponds
to one interface call made by manager.go. -/
structure ChainOracle where
  haveBlock : Hash → Bool
  isCurrentChain : Bool
  bestHeight : Int
  bestHash : Hash
  bestChainHeight : Int
  processBlock : Hash → PBResult
  isKnownOrphan : Hash → Bool
  getOrphanRoot : Hash → Hash
  latestLocatorOk : Bool
  blockHeightByHash : Hash → Option Int
  checkpoints : List Checkpoint
  haveTransaction : Hash → Bool
  fetchUtxo : Hash → Nat → Except Unit (Option Bool)
  processTx : Hash → TxResult
  lastBlock : PeerId → Int
  peerHost : PeerId → Option String

/-- peerSyncState: the per-peer bookkeeping of the sync manager. -/
structure PeerSyncState where
  syncCandidate : Bool
  requestQueue : List InvVect
  requestedTxns : Finset Hash
  requestedBlocks : Finset Hash
deriving DecidableEq

/-- The SyncManager fields accessed by the blockHandler goroutine.
chainParams is collapsed to the regTest flag (the source only compares the
pointer against chaincfg.RegressionTestParams); startHeader is an index
into headerList standing for the list-element pointer. -/
structure GState where
  shutdown : Bool
  regTest : Bool
  rejectedTxns : Finset Hash
  requestedTxns : Finset Hash
  requestedBlocks : Finset Hash
  syncPeer : Option PeerId
  peerStates : List (PeerId × PeerSyncState)
  headersFirstMode : Bool
  headerList : List HeaderNode
  startHeader : Option Nat
  nextCheckpoint : Option Checkpoint
deriving DecidableEq

/-- minInFlightBlocks from manager.go. -/
def minInFlightBlocks : Nat := 10

/-- maxRejectedTxns from manager.go. -/
def maxRejectedTxns : Nat := 1000

/-- Modelled from the spec: wire.MaxInvPerMsg, the wire-protocol limit on
inventory vectors per message; the wire package definition is not part of
the sampled sources.  The spec calls it "MaxInvPerMsg (wire limit)"; the
standard value is 50000. -/
def MaxInvPerMsg : Nat := 50000

/-- maxRequestedBlocks = wire.MaxInvPerMsg from manager.go. -/
def maxRequestedBlocks : Nat := MaxInvPerMsg

/-- maxRequestedTxns = wire.MaxInvPerMsg from manager.go. -/
def maxRequestedTxns : Nat := MaxInvPerMsg

/-- Modelled from the spec: blockchain.ShouldHaveSerializedBlockHeight is
not part of the sampled sources; per the spec it is true exactly when the
header version indicates a serialized (BIP-34) coinbase height, that is
version 2 or later. -/
def shouldHaveSerializedBlockHeight (headerVersion : Int) : Bool :=
  2 ≤ headerVersion

/-- Replace the sync state of peer pid, leaving other entries alone. -/
def updatePeer (l : List (PeerId × PeerSyncState)) (pid : PeerId)
    (f : PeerSyncState → PeerSyncState) : List (PeerId × PeerSyncState) :=
  l.map (fun q => if q.1 = pid then (q.1, f q.2) else q)

/-- Delete the entry of peer pid. -/
def removePeer (l : List (PeerId × PeerSyncState)) (pid : PeerId) :
    List (PeerId × PeerSyncState) :=
  l.filter (fun q => q.1 ≠ pid)

/-- Insert a fresh entry for peer pid, replacing an existing one as a Go
map assignment would. -/
def upsertPeer (l : List (PeerId × PeerSyncState)) (pid : PeerId)
    (st : PeerSyncState) : List (PeerId × PeerSyncState) :=
  if (List.lookup pid l).isSome then updatePeer l pid (fun _ => st)
  else l ++ [(pid, st)]

/-- Embedding of SyncManager.limitMap: if inserting one more entry would
exceed the limit, delete one entry.  The Go code deletes whichever entry a
map range yields first; the choice is passed in as pick. -/
def limitMap (m : Finset Hash) (limit : Nat) (pick : Finset Hash → Hash) :
    Finset Hash :=
  if m.card + 1 > limit then m.erase (pick m) else m

/-- Embedding of SyncManager.current. -/
def current (ora : ChainOracle) (s : GState) : Bool :=
  if ¬ora.isCurrentChain then false
  else
    match s.syncPeer with
    | none => true
    | some sp => ¬(ora.bestHeight < ora.lastBlock sp)

/-- Embedding of SyncManager.haveInventory.  Returns (have, errorFlag);
for a transaction the mempool is consulted first and then the first two
outputs are checked against the utxo view, an error from which surfaces as
the error flag. -/
def haveInventory (ora : ChainOracle) (iv : InvVect) : Bool × Bool :=
  match iv.invType with
  | .block => (ora.haveBlock iv.hash, false)
  | .tx =>
    if ora.haveTransaction iv.hash then (true, false)
    else
      match ora.fetchUtxo iv.hash 0 with
      | .error _ => (false, true)
      | .ok e0 =>
        if e0 = some true then (true, false)
        else
          match ora.fetchUtxo iv.hash 1 with
          | .error _ => (false, true)
          | .ok e1 =>
            if e1 = some true then (true, false) else (false, false)
  | .other => (true, false)

/-- The descending scan of SyncManager.findNextHeaderCheckpoint: walk the
checkpoints before the final one from highest to lowest, keeping the
lowest checkpoint whose height is still above the passed height.  The
argument list is the reversed prefix checkpoints[0 .. len-2]. -/
def findCheckpointLoop (height : Int) (next : Checkpoint) :
    List Checkpoint → Checkpoint
  | [] => next
  | c :: rest =>
    if height ≥ c.height then next else findCheckpointLoop height c rest

/-- Embedding of SyncManager.findNextHeaderCheckpoint. -/
def findNextHeaderCheckpoint (checkpoints : List Checkpoint) (height : Int) :
    Option Checkpoint :=
  match checkpoints.getLast? with
  | none => none
  | some finalCheckpoint =>
    if height ≥ finalCheckpoint.height then none
    else some (findCheckpointLoop height finalCheckpoint
      checkpoints.dropLast.reverse)

/-- Embedding of SyncManager.resetHeaderState. -/
def resetHeaderState (newestHash : Hash) (newestHeight : Int) (s : GState) :
    GState :=
  let s1 := { s with headersFirstMode := false, headerList := [],
                     startHeader := none }
  if s1.nextCheckpoint.isSome then
    { s1 with headerList := [⟨newestHeight, newestHash⟩] }
  else s1

/-- The candidate test of the startSync peer loop: the peer state must be
flagged syncCandidate and the peer must not be behind the local best
height (the source skips peers with LastBlock() < best.Height). -/
def syncQualifies (lastBlock : PeerId → Int) (bestHeight : Int)
    (q : PeerId × PeerSyncState) : Bool :=
  q.2.syncCandidate && decide (bestHeight ≤ lastBlock q.1)

/-- The peer-selection loop of SyncManager.startSync: Go ranges over the
peerStates map (in an arbitrary order, represented here by the list
order) and overwrites bestPeer with every qualifying candidate, so the
last qualifying entry in iteration order wins. -/
def startSyncSelect (peers : List (PeerId × PeerSyncState))
    (lastBlock : PeerId → Int) (bestHeight : Int) : Option PeerId :=
  peers.foldl
    (fun bestPeer q =>
      if syncQualifies lastBlock bestHeight q then some q.1 else bestPeer)
    none

/-- Embedding of SyncManager.startSync.  Already syncing means return; a
selected candidate first causes the global requestedBlocks map to be
re-made empty; a block-locator failure then returns early (with the map
already cleared and no sync peer installed); otherwise headers-first mode
is entered when a next checkpoint lies above the best height outside
regression-test mode (pushing getheaders), or a getblocks is pushed. -/
def startSync (ora : ChainOracle) (s : GState) : GState :=
  if s.syncPeer.isSome then s
  else
    match startSyncSelect s.peerStates ora.lastBlock ora.bestHeight with
    | none => s
    | some bestPeer =>
      let s1 := { s with requestedBlocks := (∅ : Finset Hash) }
      if ¬ora.latestLocatorOk then s1
      else
        let headersFirst :=
          match s1.nextCheckpoint with
          | some cp => decide (ora.bestHeight < cp.height) && !s1.regTest
          | none => false
        if headersFirst then
          -- bestPeer.PushGetHeadersMsg(locator, nextCheckpoint.Hash)
          { s1 with headersFirstMode := true, syncPeer := some bestPeer }
        else
          -- bestPeer.PushGetBlocksMsg(locator, zeroHash)
          { s1 with syncPeer := some bestPeer }

/-- Embedding of SyncManager.isSyncCandidate: under regression-test
parameters the peer address must split into a localhost host; otherwise
every peer is a candidate (the full-node/segwit checks are commented out
in the source). -/
def isSyncCandidate (ora : ChainOracle) (regTest : Bool) (pid : PeerId) :
    Bool :=
  if regTest then
    match ora.peerHost pid with
    | none => false
    | some host => host = "127.0.0.1" || host = "localhost"
  else true

/-- Embedding of SyncManager.handleNewPeerMsg: ignore while shutting down;
record a fresh peerSyncState; start syncing when the new peer is a
candidate and no sync peer is installed. -/
def handleNewPeerMsg (ora : ChainOracle) (s : GState) (pid : PeerId) :
    GState :=
  if s.shutdown then s
  else
    let cand := isSyncCandidate ora s.regTest pid
    let newState : PeerSyncState := ⟨cand, [], (∅ : Finset Hash), (∅ : Finset Hash)⟩
    let s1 := { s with peerStates := upsertPeer s.peerStates pid newState }
    if cand ∧ s1.syncPeer = none then startSync ora s1 else s1

/-- Embedding of SyncManager.handleDonePeerMsg: drop the peer state,
release its requested transactions and blocks from the global maps, and if
it was the sync peer clear the sync peer, reset headers-first state to the
current best and start a new sync. -/
def handleDonePeerMsg (ora : ChainOracle) (s : GState) (pid : PeerId) :
    GState :=
  match List.lookup pid s.peerStates with
  | none => s
  | some st =>
    let s1 := { s with peerStates := removePeer s.peerStates pid,
                       requestedTxns := s.requestedTxns \ st.requestedTxns,
                       requestedBlocks := s.requestedBlocks \ st.requestedBlocks }
    if s1.syncPeer = some pid then
      let s2 := { s1 with syncPeer := none }
      let s3 := if s2.headersFirstMode then
          resetHeaderState ora.bestHash ora.bestHeight s2
        else s2
      startSync ora s3
    else s1

/-- The walk of SyncManager.fetchHeaderBlocks over the header list from
the start header: args are the remaining nodes, the absolute index of the
current node, the number requested so far, the state and the getdata
accumulator.  A node the chain does not already have is recorded in the
global and the sync-peer requestedBlocks sets and appended to the getdata
message; startHeader advances to the next element (none at the end of the
list, as the Go element pointer becomes nil); the loop stops after
MaxInvPerMsg additions. -/
def fetchLoop (ora : ChainOracle) :
    List HeaderNode → Nat → Nat → GState → List Hash → GState × List Hash
  | [], _, _, s, gd => (s, gd)
  | node :: rest, idx, numRequested, s, gd =>
    let haveInv := (haveInventory ora ⟨.block, node.hash⟩).1
    let (s1, gd1, n1) :=
      if ¬haveInv then
        -- Go writes through sm.peerStates[sm.syncPeer]; a nil sync peer
        -- or missing entry would fault there and cannot arise on the
        -- headers-first paths that call this function.
        let ps := match s.syncPeer with
          | some sp => updatePeer s.peerStates sp
              (fun q => { q with requestedBlocks := insert node.hash q.requestedBlocks })
          | none => s.peerStates
        ({ s with requestedBlocks := insert node.hash s.requestedBlocks,
                  peerStates := ps },
         gd ++ [node.hash], numRequested + 1)
      else (s, gd, numRequested)
    let s2 := { s1 with
      startHeader := if rest.isEmpty then none else some (idx + 1) }
    if n1 ≥ MaxInvPerMsg then (s2, gd1)
    else fetchLoop ora rest (idx + 1) n1 s2 gd1

/-- Embedding of SyncManager.fetchHeaderBlocks.  Returns the new state and
the block hashes of the getdata message queued to the sync peer (empty
when nothing was requested). -/
def fetchHeaderBlocks (ora : ChainOracle) (s : GState) : GState × List Hash :=
  match s.startHeader with
  | none => (s, [])
  | some i => fetchLoop ora (s.headerList.drop i) i 0 s []

/-- Adjust a startHeader element pointer after the front of the header
list is removed: element indices shift down by one.  An index of zero
would leave a dangling pointer in Go; the paths that remove the front
never leave startHeader at the front. -/
def decStartHeader : Option Nat → Option Nat
  | none => none
  | some 0 => none
  | some (i + 1) => some i

/-- Result of the header-linking loop of handleHeadersMsg. -/
inductive LinkRes where
  | noPrev
  | badLink
  | mismatch
  | gotCheckpoint
  | exhausted
deriving DecidableEq

/-- The per-header loop of SyncManager.handleHeadersMsg: each header must
link to the current back of the header list and is then pushed (recording
it as the start header when none is set); a header reaching the checkpoint
height either verifies the batch (hash match, loop breaks) or is a
mismatch.  Returns the grown header list, the start header and how the
loop ended. -/
def headersLoop (cp : Checkpoint) :
    List Header → List HeaderNode → Option Nat →
    List HeaderNode × Option Nat × LinkRes
  | [], hl, sh => (hl, sh, .exhausted)
  | h :: rest, hl, sh =>
    match hl.getLast? with
    | none => (hl, sh, .noPrev)
    | some prevNode =>
      if prevNode.hash = h.prevBlock then
        let node : HeaderNode := ⟨prevNode.height + 1, h.hashSelf⟩
        let hl2 := hl ++ [node]
        let sh2 := match sh with
          | none => some hl.length
          | some i => some i
        if node.height = cp.height then
          if node.hash = cp.hash then (hl2, sh2, .gotCheckpoint)
          else (hl2, sh2, .mismatch)
        else headersLoop cp rest hl2 sh2
      else (hl, sh, .badLink)

/-- How a handleHeadersMsg call ended. -/
inductive HeadersOutcome where
  | unknownPeer
  | disconnectNotRequested
  | emptyMsg
  /-- headers-first mode with a nil nextCheckpoint: the source would
  dereference a nil pointer here; excluded by the headers-first
  invariant. -/
  | nilCheckpointFault
  | disconnectNoPrev
  | disconnectBadLink
  | disconnectMismatch
  | fetchingBlocks (gd : List Hash)
  | requestedNextBatch
deriving DecidableEq

/-- Embedding of SyncManager.handleHeadersMsg. -/
def handleHeadersMsg (ora : ChainOracle) (s : GState) (pid : PeerId)
    (headers : List Header) : GState × HeadersOutcome :=
  match List.lookup pid s.peerStates with
  | none => (s, .unknownPeer)
  | some _ =>
    if ¬s.headersFirstMode then (s, .disconnectNotRequested)
    else if headers.isEmpty then (s, .emptyMsg)
    else
      match s.nextCheckpoint with
      | none => (s, .nilCheckpointFault)
      | some cp =>
        match headersLoop cp headers s.headerList s.startHeader with
        | (hl2, sh2, res) =>
          match res with
          | .noPrev =>
            ({ s with headerList := hl2, startHeader := sh2 },
             .disconnectNoPrev)
          | .badLink =>
            ({ s with headerList := hl2, startHeader := sh2 },
             .disconnectBadLink)
          | .mismatch =>
            ({ s with headerList := hl2, startHeader := sh2 },
             .disconnectMismatch)
          | .gotCheckpoint =>
            -- Since the first entry of the list is the final block already
            -- stored, it is removed before fetching the blocks.
            let s1 := { s with headerList := hl2.tail,
                               startHeader := decStartHeader sh2 }
            let (s2, gd) := fetchHeaderBlocks ora s1
            (s2, .fetchingBlocks gd)
          | .exhausted =>
            -- peer.PushGetHeadersMsg(locator(finalHash), cp.Hash)
            ({ s with headerList := hl2, startHeader := sh2 },
             .requestedNextBatch)

/-- The trigger of the checkpoint-mismatch disconnect, as a predicate on a
headers message: walking from the previous node (prevHeight, prevHash),
each header links properly until one reaches exactly the checkpoint height
with a hash that differs from the checkpoint hash. -/
def mismatchTrigger (cp : Checkpoint) :
    Int → Hash → List Header → Bool
  | _, _, [] => false
  | prevHeight, prevHash, h :: rest =>
    decide (prevHash = h.prevBlock) &&
      (if prevHeight + 1 = cp.height then decide (h.hashSelf ≠ cp.hash)
       else mismatchTrigger cp (prevHeight + 1) h.hashSelf rest)

/-- The scan phase of SyncManager.handleInvMsg restricted to its effect on
the request queue: unsupported types are skipped, everything is skipped in
headers-first mode, inventory the node already has (or whose lookup
errored) is not queued, and transactions already rejected are not
queued. -/
def invScanQueue (ora : ChainOracle) (hfm : Bool) (rejected : Finset Hash)
    (queue : List InvVect) : List InvVect → List InvVect
  | [] => queue
  | iv :: rest =>
    match iv.invType with
    | .other => invScanQueue ora hfm rejected queue rest
    | _ =>
      if hfm then invScanQueue ora hfm rejected queue rest
      else
        let hv := haveInventory ora iv
        if hv.2 then invScanQueue ora hfm rejected queue rest
        else if ¬hv.1 then
          if iv.invType = .tx ∧ iv.hash ∈ rejected then
            invScanQueue ora hfm rejected queue rest
          else invScanQueue ora hfm rejected (queue ++ [iv]) rest
        else invScanQueue ora hfm rejected queue rest

/-- The getdata drain loop of SyncManager.handleInvMsg: pop the queue head;
a block (resp. transaction) not already pending is inserted into the
global map, the map is capped via limitMap, the hash is recorded in the
per-peer set and appended to the getdata message; after each element the
loop stops once MaxInvPerMsg requests have been batched, leaving the rest
of the queue.  Returns (state, leftover queue, getdata list). -/
def invDrain (pickB pickT : Finset Hash → Hash) (pid : PeerId) :
    List InvVect → Nat → GState → List InvVect →
    GState × List InvVect × List InvVect
  | [], _, s, gd => (s, [], gd)
  | iv :: rest, numRequested, s, gd =>
    let (s1, gd1, n1) :=
      match iv.invType with
      | .block =>
        if iv.hash ∉ s.requestedBlocks then
          let rb := limitMap (insert iv.hash s.requestedBlocks)
            maxRequestedBlocks pickB
          ({ s with requestedBlocks := rb,
                    peerStates := updatePeer s.peerStates pid
                      (fun q => { q with requestedBlocks := insert iv.hash q.requestedBlocks }) },
           gd ++ [iv], numRequested + 1)
        else (s, gd, numRequested)
      | .tx =>
        if iv.hash ∉ s.requestedTxns then
          let rt := limitMap (insert iv.hash s.requestedTxns)
            maxRequestedTxns pickT
          ({ s with requestedTxns := rt,
                    peerStates := updatePeer s.peerStates pid
                      (fun q => { q with requestedTxns := insert iv.hash q.requestedTxns }) },
           gd ++ [iv], numRequested + 1)
        else (s, gd, numRequested)
      | .other => (s, gd, numRequested)
    if n1 ≥ MaxInvPerMsg then (s1, rest, gd1)
    else invDrain pickB pickT pid rest n1 s1 gd1

/-- Embedding of SyncManager.handleInvMsg.  The last-announced-block and
peer-height updates are calls on the external peer handle; the orphan and
side-chain getblocks pushes likewise; only the bookkeeping state is
returned, together with the getdata inventory batched to the peer.  pickB
and pickT supply the map-eviction choices of limitMap. -/
def handleInvMsg (ora : ChainOracle) (pickB pickT : Finset Hash → Hash)
    (s : GState) (pid : PeerId) (invVects : List InvVect) :
    GState × List InvVect :=
  match List.lookup pid s.peerStates with
  | none => (s, [])
  | some st =>
    -- peer.UpdateLastAnnouncedBlock for the final block inv happens here.
    if s.syncPeer ≠ some pid ∧ ¬current ora s then (s, [])
    else
      -- peer.UpdateLastBlockHeight when current happens here.
      let q2 := invScanQueue ora s.headersFirstMode s.rejectedTxns
        st.requestQueue invVects
      match invDrain pickB pickT pid q2 0 s [] with
      | (s1, leftover, gd) =>
        let ps := updatePeer s1.peerStates pid
          (fun q => { q with requestQueue := leftover })
        ({ s1 with peerStates := ps }, gd)

/-- Embedding of SyncManager.handleTxMsg.  Returns the new state and
whether a reject message was pushed to the peer.  pickT supplies the
eviction choice for the rejectedTxns cap. -/
def handleTxMsg (ora : ChainOracle) (pickT : Finset Hash → Hash)
    (s : GState) (pid : PeerId) (tx : Tx) : GState × Bool :=
  match List.lookup pid s.peerStates with
  | none => (s, false)
  | some _ =>
    if tx.hash ∈ s.rejectedTxns then (s, false)
    else
      let res := ora.processTx tx.hash
      let s1 := { s with
        peerStates := updatePeer s.peerStates pid
          (fun q => { q with requestedTxns := q.requestedTxns.erase tx.hash }),
        requestedTxns := s.requestedTxns.erase tx.hash }
      match res with
      | .err _ =>
        let rj := limitMap (insert tx.hash s1.rejectedTxns) maxRejectedTxns
          pickT
        ({ s1 with rejectedTxns := rj }, true)
      | .ok _ =>
        -- peerNotifier.AnnounceNewTransactions(acceptedTxs)
        (s1, false)

/-- Effects of the part of handleBlockMsg after chain.ProcessBlock. -/
structure BlockFx where
  pushedGetBlocksOrphan : Bool
  updatedLastBlockHeight : Bool
  updatedPeerHeights : Bool
  fetchedHeaderBlocks : Bool
  gdmsg : List Hash
  pushedGetHeadersNext : Bool
  pushedGetBlocksZero : Bool
deriving DecidableEq

/-- How a handleBlockMsg call ended, carrying the sync-manager state at
that point.  unknownPeer and disconnected return before chain.ProcessBlock
is invoked; emptyTxFault is the runtime fault of indexing the first
transaction of an empty transaction list; corruptionFault is the
deliberate panic on a database-corruption error; rejected is the
push-reject-and-return path. -/
inductive BlockOutcome where
  | unknownPeer (s : GState)
  | disconnected (s : GState)
  | emptyTxFault (s : GState)
  | corruptionFault (s : GState)
  | rejected (s : GState)
  | nilCheckpointFault (s : GState)
  | done (s : GState) (fx : BlockFx)
deriving DecidableEq

/-- The state carried by a block-message outcome. -/
def BlockOutcome.stateOf : BlockOutcome → GState
  | .unknownPeer s => s
  | .disconnected s => s
  | .emptyTxFault s => s
  | .corruptionFault s => s
  | .rejected s => s
  | .nilCheckpointFault s => s
  | .done s _ => s

/-- Whether the outcome is the push-reject-and-return path. -/
def BlockOutcome.isRejected : BlockOutcome → Bool
  | .rejected _ => true
  | _ => false

/-- Whether the outcome is the database-corruption panic. -/
def BlockOutcome.isCorruptionFault : BlockOutcome → Bool
  | .corruptionFault _ => true
  | _ => false

/-- Whether the outcome is the empty-transaction-list indexing fault. -/
def BlockOutcome.isEmptyTxFault : BlockOutcome → Bool
  | .emptyTxFault _ => true
  | _ => false

/-- Whether the outcome is the unrequested-block disconnect. -/
def BlockOutcome.isDisconnected : BlockOutcome → Bool
  | .disconnected _ => true
  | _ => false

/-- Whether the outcome completed the handler tail. -/
def BlockOutcome.isDone : BlockOutcome → Bool
  | .done _ _ => true
  | _ => false

/-- The coinbase-height extraction of handleBlockMsg: when the header
version calls for a serialized block height, the handler reads the first
transaction of the block without a length check (none models the
out-of-bounds access on an empty list) and tries to extract its coinbase
height, leaving the height update at zero on an extraction error. -/
def coinbaseHeightInfo (b : Block) : Option (Int × Option Hash) :=
  if shouldHaveSerializedBlockHeight b.headerVersion then
    match b.txs with
    | [] => none
    | t0 :: _ =>
      match t0.cbHeight with
      | some h => some (h, some b.hash)
      | none => some (0, none)
  else some (0, none)

/-- The tail of handleBlockMsg after chain.ProcessBlock: orphan blocks
trigger an ancestor getblocks request (the orphan branch re-runs the same
coinbase extraction on the same first transaction, reproducing the values
already computed); accepted blocks update the height bookkeeping from the
best snapshot and clear rejectedTxns; then peer heights are propagated and
the headers-first continuation runs (refill fetch below the in-flight
minimum, or checkpoint advance). -/
def blockMsgTail (ora : ChainOracle) (s1 : GState) (pid : PeerId)
    (isCheckpointBlock : Bool) (heightUpdate : Int)
    (blkHashUpdate : Option Hash) (isOrphan : Bool) : BlockOutcome :=
  let (s2, hu, bh, orphanPush) :=
    if isOrphan then
      -- sm.chain.GetOrphanRoot(blockHash); push getblocks when the
      -- latest block locator is available.
      (s1, heightUpdate, blkHashUpdate, ora.latestLocatorOk)
    else
      ({ s1 with rejectedTxns := (∅ : Finset Hash) },
       ora.bestHeight, some ora.bestHash, false)
  let updatedLast := bh.isSome ∧ hu ≠ 0
  let updatedHeights := updatedLast ∧ (isOrphan ∨ current ora s2 = true)
  let fx0 : BlockFx := ⟨orphanPush, decide updatedLast, decide updatedHeights,
    false, [], false, false⟩
  if ¬s2.headersFirstMode then .done s2 fx0
  else if ¬isCheckpointBlock then
    let perCard := match List.lookup pid s2.peerStates with
      | some q => q.requestedBlocks.card
      | none => 0
    if s2.startHeader.isSome ∧ perCard < minInFlightBlocks then
      match fetchHeaderBlocks ora s2 with
      | (s3, gd) => .done s3 { fx0 with fetchedHeaderBlocks := true, gdmsg := gd }
    else .done s2 fx0
  else
    match s2.nextCheckpoint with
    | none => .nilCheckpointFault s2
    | some cp =>
      let ncp := findNextHeaderCheckpoint ora.checkpoints cp.height
      let s3 := { s2 with nextCheckpoint := ncp }
      match ncp with
      | some _ =>
        -- pp.PushGetHeadersMsg(locator(prevHash), nextCheckpoint.Hash)
        .done s3 { fx0 with pushedGetHeadersNext := true }
      | none =>
        -- switching to normal mode: getblocks from this block to the
        -- zero hash.
        .done { s3 with headersFirstMode := false, headerList := [] }
          { fx0 with pushedGetBlocksZero := true }

/-- The headers-first front handling of handleBlockMsg: when in
headers-first mode and the block matches the first header-list entry, the
block is eligible for fast-add validation; the entry is dropped unless it
is the checkpoint (needed to link the next batch).  Returns
(isCheckpointBlock, new header list, new start header). -/
def headersFirstCheck (s : GState) (b : Block) :
    Bool × List HeaderNode × Option Nat :=
  if s.headersFirstMode then
    match s.headerList with
    | [] => (false, s.headerList, s.startHeader)
    | firstNode :: rest =>
      if b.hash = firstNode.hash then
        -- behaviorFlags gains BFFastAdd here.  The source compares
        -- firstNode.hash against sm.nextCheckpoint.Hash, faulting on a
        -- nil checkpoint; headers-first mode keeps the checkpoint
        -- non-nil.
        if some firstNode.hash = Option.map Checkpoint.hash s.nextCheckpoint
        then (true, s.headerList, s.startHeader)
        else (false, rest, decStartHeader s.startHeader)
      else (false, s.headerList, s.startHeader)
  else (false, s.headerList, s.startHeader)

/-- Embedding of SyncManager.handleBlockMsg. -/
def handleBlockMsg (ora : ChainOracle) (s : GState) (pid : PeerId)
    (b : Block) : BlockOutcome :=
  match List.lookup pid s.peerStates with
  | none => .unknownPeer s
  | some st =>
    if b.hash ∉ st.requestedBlocks ∧ ¬s.regTest then
      -- pp.Disconnect(); the handler returns before touching the request
      -- maps and before chain.ProcessBlock.
      .disconnected s
    else
      match headersFirstCheck s b with
      | (isCheckpointBlock, hl1, sh1) =>
        let ps1 := updatePeer s.peerStates pid
          (fun q => { q with requestedBlocks := q.requestedBlocks.erase b.hash })
        let s1 := { s with headerList := hl1, startHeader := sh1,
                           peerStates := ps1,
                           requestedBlocks := s.requestedBlocks.erase b.hash }
        match coinbaseHeightInfo b with
        | none => .emptyTxFault s1
        | some (heightUpdate, blkHashUpdate) =>
          match ora.processBlock b.hash with
          | .err _ isCorruption =>
            if heightUpdate + 1 ≤ ora.bestChainHeight then
              if isCorruption then .corruptionFault s1
              else
                -- pp.PushRejectMsg(wire.CmdBlock, code, reason, ...)
                .rejected s1
            else
              -- the error is swallowed and the block is treated as an
              -- orphan (isOrphan = true).
              blockMsgTail ora s1 pid isCheckpointBlock heightUpdate
                blkHashUpdate true
          | .ok _ isOrphan =>
            blockMsgTail ora s1 pid isCheckpointBlock heightUpdate
              blkHashUpdate isOrphan

/-- The containment invariant of the sync manager: every hash in any
per-peer requestedBlocks set is also in the global requestedBlocks map. -/
def Containment (s : GState) : Prop :=
  ∀ q ∈ s.peerStates, q.2.requestedBlocks ⊆ s.requestedBlocks

instance (s : GState) : Decidable (Containment s) := by
  unfold Containment; infer_instance

/-- The union of all per-peer requestedBlocks sets. -/
def allPeerBlocks (l : List (PeerId × PeerSyncState)) : Finset Hash :=
  l.foldr (fun q acc => q.2.requestedBlocks ∪ acc) (∅ : Finset Hash)

/-- The block hashes announced by a queue of inventory vectors. -/
def queueBlockHashes (queue : List InvVect) : Finset Hash :=
  queue.foldr (fun iv acc =>
    match iv.invType with
    | .block => insert iv.hash acc
    | _ => acc) (∅ : Finset Hash)

/-- The cap invariant over the bounded maps of the sync manager. -/
def CapsOk (s : GState) : Prop :=
  s.rejectedTxns.card ≤ maxRejectedTxns ∧
  s.requestedBlocks.card ≤ maxRequestedBlocks ∧
  s.requestedTxns.card ≤ maxRequestedTxns

instance (s : GState) : Decidable (CapsOk s) := by
  unfold CapsOk; infer_instance

/-- A concrete eviction choice usable as the pick argument of limitMap:
the least element of the map. -/
def pickLeast (m : Finset Hash) : Hash :=
  (m.sort (· ≤ ·)).headD 0

/-- The coinbase-height extraction of the processBlockMsg case of
SyncManager.blockHandler: unlike handleBlockMsg, it guards the access with
a length check (logging "no transactions in block??" otherwise) and reads
the last transaction of the block. -/
def processBlockMsgHeight (b : Block) : Int :=
  if shouldHaveSerializedBlockHeight b.headerVersion then
    match b.txs.getLast? with
    | some coinbaseTx =>
      match coinbaseTx.cbHeight with
      | some h => h
      | none => 0
    | none => 0
  else 0

/-- The request queue handed to the getdata drain of handleInvMsg: the
stored per-peer queue extended by the scan phase. -/
def invFullQueue (ora : ChainOracle) (s : GState) (pid : PeerId)
    (invVects : List InvVect) : List InvVect :=
  match List.lookup pid s.peerStates with
  | none => []
  | some st =>
    invScanQueue ora s.headersFirstMode s.rejectedTxns st.requestQueue
      invVects

end Netsync

namespace Fixtures

open Pod Netsync Connmgr

/-- A baseline oracle: an empty, current chain with best height 0 and a
best-chain tip height of 5, whose block processing accepts everything, and
peers that all report last block 10. -/
def oraBase : ChainOracle where
  haveBlock := fun _ => false
  isCurrentChain := true
  bestHeight := 0
  bestHash := 0
  bestChainHeight := 5
  processBlock := fun _ => .ok true false
  isKnownOrphan := fun _ => false
  getOrphanRoot := fun h => h
  latestLocatorOk := true
  blockHeightByHash := fun _ => none
  checkpoints := []
  haveTransaction := fun _ => false
  fetchUtxo := fun _ _ => .ok none
  processTx := fun _ => .ok []
  lastBlock := fun _ => 10
  peerHost := fun _ => none

/-- The baseline oracle with every block rejected by a rule error. -/
def oraRuleErr : ChainOracle :=
  { oraBase with processBlock := fun _ => .err true false }

/-- The baseline oracle with every block failing on database corruption. -/
def oraCorrupt : ChainOracle :=
  { oraBase with processBlock := fun _ => .err false true }

/-- A peer sync state that is a candidate with nothing in flight. -/
def stEmpty : PeerSyncState := ⟨true, [], ∅, ∅⟩

/-- A candidate peer state with block 5 in flight. -/
def stHold5 : PeerSyncState := ⟨true, [], ∅, {5}⟩

/-- A candidate peer state whose stored request queue announces block
MaxInvPerMsg. -/
def stQueueBig : PeerSyncState := ⟨true, [⟨.block, MaxInvPerMsg⟩], ∅, ∅⟩

/-- A sync-manager state with a single known peer 1 that has block 5 in
flight, outside headers-first mode. -/
def sReq5 : GState :=
  ⟨false, false, ∅, ∅, {5}, none, [(1, stHold5)], false, [], none, none⟩

/-- sReq5 under regression-test chain parameters. -/
def sReq5Reg : GState :=
  ⟨false, true, ∅, ∅, {5}, none, [(1, stHold5)], false, [], none, none⟩

/-- A state where peer 1 is known but has nothing in flight. -/
def sNoReq : GState :=
  ⟨false, false, ∅, ∅, ∅, none, [(1, stEmpty)], false, [], none, none⟩

/-- sNoReq under regression-test chain parameters. -/
def sNoReqReg : GState :=
  ⟨false, true, ∅, ∅, ∅, none, [(1, stEmpty)], false, [], none, none⟩

/-- A headers-first state for peer 1: the header list tail is the stored
block at height 5 with hash 100, and the next checkpoint is height 6 with
hash 999. -/
def sHdr : GState :=
  ⟨false, false, ∅, ∅, ∅, some 1, [(1, stEmpty)], true, [⟨5, 100⟩], none,
   some ⟨6, 999⟩⟩

/-- A headers message whose single header links to hash 100 but carries
hash 50 at the checkpoint height 6 (the checkpoint expects 999). -/
def hdrsBad : List Header := [⟨100, 50⟩]

/-- A block with hash 5, header version 2 and no transactions. -/
def bNoTx : Block := ⟨5, 2, []⟩

/-- A block with hash 5, header version 2 and one transaction whose
serialized coinbase height is 100. -/
def bCb100 : Block := ⟨5, 2, [⟨9, some 100⟩]⟩

/-- A block with hash 5 and a version-1 header (no serialized height). -/
def bV1 : Block := ⟨5, 1, []⟩

/-- A headers-first state at the requested-blocks cap: the global map
holds maxRequestedBlocks hashes, the sync peer 1 has fewer than
minInFlightBlocks in flight, and the start header points at a fresh block
hash. -/
def sAtCap : GState :=
  ⟨false, false, ∅, ∅, Finset.range maxRequestedBlocks, some 1,
   [(1, stEmpty)], true, [⟨1, maxRequestedBlocks⟩], some 0, some ⟨100, 999⟩⟩

/-- A state ready for startSync to clear the global map while peer 1
still has block 5 in flight: no sync peer, peer 1 a qualifying
candidate. -/
def sClear : GState :=
  ⟨false, false, ∅, ∅, {5}, none, [(1, stHold5)], false, [], none, none⟩

/-- A state where peers 1 and 2 both have block 5 in flight and peer 2 is
the sync peer. -/
def sShared : GState :=
  ⟨false, false, ∅, ∅, {5}, some 2, [(1, stHold5), (2, stHold5)], false,
   [], none, none⟩

/-- A state at the requested-blocks cap where sync peer 2 has a stored
request queue announcing a fresh block while peer 1 holds block 5: the
cap eviction of the getdata drain can hit block 5. -/
def sEvict : GState :=
  ⟨false, false, ∅, ∅, Finset.range maxRequestedBlocks, some 2,
   [(1, stHold5), (2, stQueueBig)], false, [], none, none⟩

/-- The constant eviction choice hitting hash 5. -/
def pickFive : Finset Hash → Hash := fun _ => 5

/-- A small empty sync-manager state with one idle peer. -/
def sIdle : GState :=
  ⟨false, false, ∅, ∅, ∅, none, [(1, stEmpty)], false, [], none, none⟩

/-- A connection manager holding one established connection with id 1 and
one pending dial with id 2. -/
def cmBoth : CMState :=
  ⟨[(2, ⟨2, false, .pending, 0⟩)], [(1, ⟨1, false, .established, 0⟩)], 0,
   8, 5, 3600, true, false⟩

/-- The established request of cmBoth. -/
def crEstab : ConnReq := ⟨1, false, .established, 0⟩

/-- The pending request of cmBoth. -/
def crPend : ConnReq := ⟨2, false, .pending, 0⟩

end Fixtures

/-!
Theorems.  Shared helper lemmas come first, then one theorem per claim
(with its counterexample and witness where required).
-/

section Helpers

/-- A successful association-list lookup exhibits a member pair. -/
theorem mem_of_lookup_some {β : Type} {a : Nat} {b : β}
    {l : List (Nat × β)} (h : List.lookup a l = some b) : (a, b) ∈ l := by
  induction l with
  | nil => simp [List.lookup] at h
  | cons hd tl ih =>
    rcases hd with ⟨k, v⟩
    rw [List.lookup_cons] at h
    by_cases hk : a = k
    · subst hk
      simp at h
      subst h
      exact List.mem_cons_self _ _
    · have hbeq : (a == k) = false := beq_false_of_ne hk
      rw [hbeq] at h
      exact List.mem_cons_of_mem _ (ih h)

/-- Lookup of a removed id fails. -/
theorem lookup_removeId (l : List (Nat × Connmgr.ConnReq)) (id : Nat) :
    List.lookup id (Connmgr.removeId l id) = none := by
  induction l with
  | nil => rfl
  | cons hd tl ih =>
    rcases hd with ⟨k, v⟩
    by_cases hk : k = id
    · subst hk
      simpa [Connmgr.removeId] using ih
    · have : (id == k) = false := beq_false_of_ne (Ne.symm hk)
      simp [Connmgr.removeId, hk, List.lookup_cons, this]
      simpa [Connmgr.removeId] using ih

end Helpers

section ClaimC7

open Control

/-- The backoff value after n increments is min (n + 1) 6: the increment
guard backoffTime ≤ 5 s lets the value grow from 5 to 6 before
stabilizing. -/
theorem backoffAfter_eq (n : Nat) : backoffAfter n = min (n + 1) 6 := by
  induction n with
  | zero => rfl
  | succ k ih =>
    unfold backoffAfter nextBackoff
    rw [ih]
    split <;> omega

/-- C7 counterexample: after six consecutive connection failures the
wallet watcher waits six seconds, not min(6 s, 5 s) = 5 s, so the claimed
five-second cap is exceeded. -/
theorem c7_counterexample :
    Control.waitAfterFailures 6 = 6 ∧
    Control.waitAfterFailures 6 ≠ min 6 5 ∧
    ¬(Control.waitAfterFailures 6 ≤ 5) := by decide

/-- C7 (corrected): the wallet watcher reconnect wait starts at one
second, grows by one second per consecutive failure and is capped at six
seconds (not five): after k ≥ 1 consecutive failures the wait before the
next attempt is min(k, 6) seconds, and a successful connection resets the
backoff to one second. -/
theorem c7_amended (k : Nat) (hk : 1 ≤ k) :
    Control.waitAfterFailures k = min k 6 ∧ Control.backoffOnSuccess = 1 := by
  constructor
  · unfold Control.waitAfterFailures
    rw [backoffAfter_eq]
    omega
  · rfl

/-- Witness for c7_amended at k = 7. -/
theorem c7_witness :
    1 ≤ 7 ∧ (Control.waitAfterFailures 7 = min 7 6 ∧ Control.backoffOnSuccess = 1) :=
  ⟨by decide, c7_amended 7 (by decide)⟩

end ClaimC7

section ClaimC8

open Control

/-- C8 (code bug): updateAndSendWork always re-sends the cached shard set,
even when its own staleness switch decides a regeneration is due: at an
input whose cached template is stale (tx source moved and more than one
minute since the last generation) the getNew flag is computed true, yet
the sent shards are exactly the stale cached ones, because the
regeneration body is commented out in the source. -/
theorem c8_stale_template_resent :
    (∀ (env : WorkEnv) (s : WorkState),
      (updateAndSendWork env s).2.1 = s.oldBlocks) ∧
    (updateAndSendWork ⟨1, 60000000001⟩ ⟨some [7], 0, 0⟩).1 = true ∧
    (updateAndSendWork ⟨1, 60000000001⟩ ⟨some [7], 0, 0⟩).2.1 = some [7] := by
  refine ⟨?_, by decide, by decide⟩
  intro env s
  unfold updateAndSendWork
  rcases s with ⟨oB, ltu, lg⟩
  rcases oB with _ | oB <;> rfl

end ClaimC8

section ClaimC6

open Connmgr Fixtures

/-- C6 counterexample: removing an established connection (id 1 of
cmBoth) leaves the request in the Disconnected state, not the claimed
Canceled state. -/
theorem c6_counterexample :
    ((Connmgr.Remove cmBoth 1).2.reqFinal.map ConnReq.connState =
      some ConnState.disconnected) ∧
    ¬((Connmgr.Remove cmBoth 1).2.reqFinal.map ConnReq.connState =
      some ConnState.canceled) := by decide

/-- C6 (corrected): Remove(id) is a terminal removal scheduling no retry
in either case, but the resulting state differs: a still-pending dial is
transitioned to Canceled and dropped from the pending map, while an
established connection is closed, removed from the conns map and
transitioned to Disconnected (not Canceled). -/
theorem c6_amended (cm : Connmgr.CMState) (id : Nat) (cr : Connmgr.ConnReq)
    (hstop : cm.stopped = false) :
    (List.lookup id cm.conns = none → List.lookup id cm.pending = some cr →
      (Connmgr.Remove cm id).2.reqFinal =
        some { cr with connState := .canceled } ∧
      List.lookup id (Connmgr.Remove cm id).1.pending = none ∧
      (Connmgr.Remove cm id).2.retryAction = .noAction) ∧
    (List.lookup id cm.conns = some cr →
      (Connmgr.Remove cm id).2.reqFinal =
        some { cr with connState := .disconnected } ∧
      List.lookup id (Connmgr.Remove cm id).1.conns = none ∧
      (Connmgr.Remove cm id).2.retryAction = .noAction) := by
  unfold Connmgr.Remove
  rw [hstop]
  simp only [Bool.false_eq_true, if_false]
  constructor
  · intro hconns hpend
    unfold Connmgr.handleDisconnected
    rw [hconns, hpend]
    refine ⟨rfl, ?_, rfl⟩
    exact lookup_removeId cm.pending id
  · intro hconns
    unfold Connmgr.handleDisconnected
    rw [hconns]
    refine ⟨rfl, ?_, rfl⟩
    exact lookup_removeId cm.conns id

/-- Witness for c6_amended on cmBoth: both the pending id 2 and the
established id 1 are exercised. -/
theorem c6_witness :
    cmBoth.stopped = false ∧
    ((Connmgr.Remove cmBoth 2).2.reqFinal =
        some { crPend with connState := .canceled } ∧
      List.lookup 2 (Connmgr.Remove cmBoth 2).1.pending = none ∧
      (Connmgr.Remove cmBoth 2).2.retryAction = .noAction) ∧
    ((Connmgr.Remove cmBoth 1).2.reqFinal =
        some { crEstab with connState := .disconnected } ∧
      List.lookup 1 (Connmgr.Remove cmBoth 1).1.conns = none ∧
      (Connmgr.Remove cmBoth 1).2.retryAction = .noAction) :=
  ⟨by decide,
   (c6_amended cmBoth 2 crPend (by decide)).1 (by decide) (by decide),
   (c6_amended cmBoth 1 crEstab (by decide)).2 (by decide)⟩

end ClaimC6

section ClaimC9

open Pod Netsync Fixtures

/-- C9 counterexample: with two qualifying candidates, the two iteration
orders of the same peer-state set select different peers (the loop keeps
the last qualifying entry, so the first order picks peer 2, not the
first-seen peer 1): the selection is not a deterministic function of the
candidate set. -/
theorem c9_counterexample :
    Netsync.startSyncSelect [(1, stEmpty), (2, stEmpty)] (fun _ => 10) 0 =
      some 2 ∧
    Netsync.startSyncSelect [(2, stEmpty), (1, stEmpty)] (fun _ => 10) 0 =
      some 1 ∧
    Netsync.startSyncSelect [(1, stEmpty), (2, stEmpty)] (fun _ => 10) 0 ≠
      Netsync.startSyncSelect [(2, stEmpty), (1, stEmpty)] (fun _ => 10) 0 ∧
    ([(1, stEmpty), (2, stEmpty)] : List (PeerId × PeerSyncState)).Perm
      [(2, stEmpty), (1, stEmpty)] := by
  exact ⟨by decide, by decide, by decide, by decide⟩

/-- C9 (corrected): startSync selects the last-seen qualifying candidate
of the Go map iteration (modelled by the list order): the selection equals
the last element of the iteration sequence filtered to candidates whose
last block is not below the best height.  It is therefore a deterministic
function of the iteration sequence, but not of the candidate set alone,
since Go map iteration order is unspecified. -/
theorem c9_amended (peers : List (PeerId × PeerSyncState))
    (lastBlock : PeerId → Int) (bestHeight : Int) :
    Netsync.startSyncSelect peers lastBlock bestHeight =
      ((peers.filter (Netsync.syncQualifies lastBlock bestHeight)).getLast?).map
        Prod.fst := by
  induction peers using List.reverseRecOn with
  | nil => rfl
  | append_singleton l x ih =>
    unfold Netsync.startSyncSelect at ih ⊢
    rw [List.foldl_append, List.filter_append]
    by_cases hq : Netsync.syncQualifies lastBlock bestHeight x
    · simp [hq, List.getLast?_concat]
    · simp [hq, ih]

end ClaimC9

section ClaimC10

open Pod Netsync Fixtures

/-- C10 (code bug): a block satisfying the handler precondition (known
peer 1, hash 5 in the per-peer requestedBlocks, non-regression chain)
whose version-2 header calls for a serialized coinbase height but whose
transaction list is empty makes handleBlockMsg index the first transaction
out of bounds (the emptyTxFault outcome, a runtime panic in Go), while the
guarded processBlockMsg extraction on the same block is total. -/
theorem c10_unguarded_coinbase_index :
    (Netsync.handleBlockMsg oraBase sReq5 1 bNoTx).isEmptyTxFault = true ∧
    Netsync.processBlockMsgHeight bNoTx = 0 ∧
    (5 : Nat) ∈ stHold5.requestedBlocks ∧
    List.lookup 1 sReq5.peerStates = some stHold5 ∧
    sReq5.regTest = false ∧
    Netsync.shouldHaveSerializedBlockHeight bNoTx.headerVersion = true := by
  decide

end ClaimC10

section ClaimC4

open Pod Netsync Fixtures

/-- The post-ProcessBlock tail of handleBlockMsg contains no disconnect. -/
theorem blockMsgTail_not_disconnected (ora : ChainOracle) (s1 : GState)
    (pid : PeerId) (icb : Bool) (hu : Int) (bh : Option Hash) (io : Bool) :
    (Netsync.blockMsgTail ora s1 pid icb hu bh io).isDisconnected = false := by
  unfold Netsync.blockMsgTail
  dsimp only
  repeat' split
  all_goals rfl

/-- C4 (confirmed): a block from a known peer whose hash is not in that
peer's requestedBlocks set causes an immediate disconnect outside
regression-test mode, returning the input state untouched (so the request
maps are not mutated) before chain.ProcessBlock is reached, while under
regression-test parameters the block is processed with no disconnect. -/
theorem c4_unrequested_block (ora : ChainOracle) (s : GState) (pid : PeerId)
    (b : Block) (st : PeerSyncState)
    (hst : List.lookup pid s.peerStates = some st)
    (hreq : b.hash ∉ st.requestedBlocks) :
    (s.regTest = false →
      Netsync.handleBlockMsg ora s pid b = .disconnected s) ∧
    (s.regTest = true →
      (Netsync.handleBlockMsg ora s pid b).isDisconnected = false) := by
  constructor
  · intro hrt
    unfold Netsync.handleBlockMsg
    rw [hst]
    dsimp only
    rw [if_pos ⟨hreq, by simp [hrt]⟩]
  · intro hrt
    unfold Netsync.handleBlockMsg
    rw [hst]
    dsimp only
    rw [if_neg (by simp [hrt])]
    repeat' split
    all_goals first
      | rfl
      | apply blockMsgTail_not_disconnected

/-- Witness for c4_unrequested_block: peer 1 of sNoReq (and of its
regression-test twin sNoReqReg) has nothing in flight, so block 5 is
unrequested; the first run disconnects, the second does not. -/
theorem c4_witness :
    (List.lookup 1 sNoReq.peerStates = some stEmpty ∧
      (5 : Nat) ∉ stEmpty.requestedBlocks ∧ sNoReq.regTest = false ∧
      List.lookup 1 sNoReqReg.peerStates = some stEmpty ∧
      sNoReqReg.regTest = true) ∧
    Netsync.handleBlockMsg oraBase sNoReq 1 bV1 = .disconnected sNoReq ∧
    (Netsync.handleBlockMsg oraBase sNoReqReg 1 bV1).isDisconnected = false :=
  ⟨⟨by decide, by decide, by decide, by decide, by decide⟩,
   (c4_unrequested_block oraBase sNoReq 1 bV1 stEmpty (by decide)
     (by decide)).1 (by decide),
   (c4_unrequested_block oraBase sNoReqReg 1 bV1 stEmpty (by decide)
     (by decide)).2 (by decide)⟩

end ClaimC4

section ClaimC5

open Pod Netsync Fixtures

/-- Unfolding equation for headersLoop on a nonempty header list. -/
theorem headersLoop_cons_eq (cp : Checkpoint) (h : Header)
    (rest : List Header) (hl : List HeaderNode) (sh : Option Nat) :
    Netsync.headersLoop cp (h :: rest) hl sh =
      match hl.getLast? with
      | none => (hl, sh, .noPrev)
      | some prevNode =>
        if prevNode.hash = h.prevBlock then
          let node : HeaderNode := ⟨prevNode.height + 1, h.hashSelf⟩
          let hl2 := hl ++ [node]
          let sh2 := match sh with
            | none => some hl.length
            | some i => some i
          if node.height = cp.height then
            if node.hash = cp.hash then (hl2, sh2, .gotCheckpoint)
            else (hl2, sh2, .mismatch)
          else Netsync.headersLoop cp rest hl2 sh2
        else (hl, sh, .badLink) := rfl

/-- If the headers of a message link properly from the back of the header
list up to a header that reaches the checkpoint height with a hash that
differs from the checkpoint hash, the linking loop ends in the mismatch
result. -/
theorem headersLoop_mismatch (cp : Checkpoint) :
    ∀ (headers : List Header) (hl : List HeaderNode) (sh : Option Nat)
      (back : HeaderNode),
      hl.getLast? = some back →
      Netsync.mismatchTrigger cp back.height back.hash headers = true →
      (Netsync.headersLoop cp headers hl sh).2.2 = .mismatch := by
  intro headers
  induction headers with
  | nil =>
    intro hl sh back _ htrig
    simp [Netsync.mismatchTrigger] at htrig
  | cons h rest ih =>
    intro hl sh back hback htrig
    unfold Netsync.mismatchTrigger at htrig
    rw [Bool.and_eq_true, decide_eq_true_iff] at htrig
    obtain ⟨hlink, hrest⟩ := htrig
    rw [headersLoop_cons_eq, hback]
    dsimp only
    rw [if_pos hlink]
    by_cases hh : back.height + 1 = cp.height
    · rw [if_pos hh] at hrest
      rw [decide_eq_true_iff] at hrest
      rw [if_pos hh, if_neg hrest]
    · rw [if_neg hh] at hrest
      rw [if_neg hh]
      exact ih (hl ++ [⟨back.height + 1, h.hashSelf⟩]) _ _
        (List.getLast?_concat hl) hrest

/-- C5 (confirmed): a headers message processed in headers-first mode that
contains a header whose computed height equals the next-checkpoint height
but whose hash differs from the checkpoint hash makes handleHeadersMsg
disconnect the sending peer, and the call leaves both nextCheckpoint and
headersFirstMode unchanged. -/
theorem c5_checkpoint_mismatch (ora : ChainOracle) (s : GState)
    (pid : PeerId) (headers : List Header) (st : PeerSyncState)
    (cp : Checkpoint) (back : HeaderNode)
    (hst : List.lookup pid s.peerStates = some st)
    (hfm : s.headersFirstMode = true)
    (hcp : s.nextCheckpoint = some cp)
    (hback : s.headerList.getLast? = some back)
    (htrig : Netsync.mismatchTrigger cp back.height back.hash headers = true) :
    (Netsync.handleHeadersMsg ora s pid headers).2 = .disconnectMismatch ∧
    (Netsync.handleHeadersMsg ora s pid headers).1.nextCheckpoint =
      s.nextCheckpoint ∧
    (Netsync.handleHeadersMsg ora s pid headers).1.headersFirstMode =
      s.headersFirstMode := by
  have hne : headers ≠ [] := by
    intro hcontra
    rw [hcontra] at htrig
    simp [Netsync.mismatchTrigger] at htrig
  have hres :=
    headersLoop_mismatch cp headers s.headerList s.startHeader back hback htrig
  unfold Netsync.handleHeadersMsg
  rw [hst]
  dsimp only
  rw [if_neg (by simp [hfm])]
  rw [if_neg (by simp [List.isEmpty_iff, hne])]
  rw [hcp]
  dsimp only
  rcases hLE : Netsync.headersLoop cp headers s.headerList s.startHeader with
    ⟨hl2, sh2, res⟩
  rw [hLE] at hres
  simp only at hres
  subst hres
  exact ⟨rfl, rfl, rfl⟩

/-- Witness for c5_checkpoint_mismatch on sHdr and hdrsBad: the single
header links to the stored tail at height 5 / hash 100, reaches the
checkpoint height 6 with hash 50 instead of 999, and the handler
disconnects leaving the checkpoint state alone. -/
theorem c5_witness :
    (List.lookup 1 sHdr.peerStates = some stEmpty ∧
      sHdr.headersFirstMode = true ∧
      sHdr.nextCheckpoint = some ⟨6, 999⟩ ∧
      sHdr.headerList.getLast? = some ⟨5, 100⟩ ∧
      Netsync.mismatchTrigger ⟨6, 999⟩ 5 100 hdrsBad = true) ∧
    (Netsync.handleHeadersMsg oraBase sHdr 1 hdrsBad).2 =
      .disconnectMismatch ∧
    (Netsync.handleHeadersMsg oraBase sHdr 1 hdrsBad).1.nextCheckpoint =
      sHdr.nextCheckpoint ∧
    (Netsync.handleHeadersMsg oraBase sHdr 1 hdrsBad).1.headersFirstMode =
      sHdr.headersFirstMode :=
  ⟨⟨by decide, by decide, by decide, by decide, by decide⟩,
   c5_checkpoint_mismatch oraBase sHdr 1 hdrsBad stEmpty ⟨6, 999⟩ ⟨5, 100⟩
     (by decide) (by decide) (by decide) (by decide) (by decide)⟩

end ClaimC5

section ClaimC1

open Pod Netsync Fixtures

/-- The headers-first front check flags a checkpoint block only when a
next checkpoint is installed. -/
theorem headersFirstCheck_fst_some (s : GState) (b : Block)
    (h : (Netsync.headersFirstCheck s b).1 = true) :
    s.nextCheckpoint.isSome = true := by
  unfold Netsync.headersFirstCheck at h
  rcases hncp : s.nextCheckpoint with _ | cp
  · rw [hncp] at h
    repeat' split at h
    all_goals simp_all
  · rfl

/-- The post-ProcessBlock tail of handleBlockMsg never pushes a reject. -/
theorem blockMsgTail_not_rejected (ora : ChainOracle) (s1 : GState)
    (pid : PeerId) (icb : Bool) (hu : Int) (bh : Option Hash) (io : Bool) :
    (Netsync.blockMsgTail ora s1 pid icb hu bh io).isRejected = false := by
  unfold Netsync.blockMsgTail
  dsimp only
  repeat' split
  all_goals rfl

/-- The post-ProcessBlock tail of handleBlockMsg never panics on database
corruption. -/
theorem blockMsgTail_not_corrupt (ora : ChainOracle) (s1 : GState)
    (pid : PeerId) (icb : Bool) (hu : Int) (bh : Option Hash) (io : Bool) :
    (Netsync.blockMsgTail ora s1 pid icb hu bh io).isCorruptionFault = false := by
  unfold Netsync.blockMsgTail
  dsimp only
  repeat' split
  all_goals rfl

/-- The post-ProcessBlock tail completes (a done outcome) whenever a
checkpoint block implies an installed next checkpoint. -/
theorem blockMsgTail_isDone (ora : ChainOracle) (s1 : GState)
    (pid : PeerId) (icb : Bool) (hu : Int) (bh : Option Hash) (io : Bool)
    (hcp : icb = true → s1.nextCheckpoint.isSome = true) :
    (Netsync.blockMsgTail ora s1 pid icb hu bh io).isDone = true := by
  unfold Netsync.blockMsgTail
  dsimp only
  repeat' split
  all_goals first
    | rfl
    | simp_all

/-- C1 counterexample: a requested block from known peer 1 whose
processing fails with a rule error pushes no reject and does not panic:
because its extracted coinbase height (100) satisfies
heightUpdate + 1 > chain.BestChain.Height() (= 5), the error is swallowed
and the handler continues, treating the block as an orphan — so the
reject-and-return of the claim does carry a precondition on the block
height relative to the local best chain. -/
theorem c1_counterexample :
    oraRuleErr.processBlock bCb100.hash = PBResult.err true false ∧
    (5 : Nat) ∈ stHold5.requestedBlocks ∧
    (Netsync.handleBlockMsg oraRuleErr sReq5 1 bCb100).isRejected = false ∧
    (Netsync.handleBlockMsg oraRuleErr sReq5 1 bCb100).isCorruptionFault =
      false ∧
    (Netsync.handleBlockMsg oraRuleErr sReq5 1 bCb100).isDone = true := by
  decide

/-- C1 (corrected): for a requested block from a known peer whose
processing returns an error, the reject-and-return (or, for database
corruption, the panic) happens only under the additional precondition
that the extracted coinbase height satisfies
heightUpdate + 1 ≤ chain.BestChain.Height(); the reject path returns with
rejectedTxns, nextCheckpoint, headersFirstMode and syncPeer untouched.
When heightUpdate + 1 exceeds the best-chain height the error is
swallowed and the block is processed as an orphan instead, with no reject
and no panic. -/
theorem c1_amended (ora : ChainOracle) (s : GState) (pid : PeerId)
    (b : Block) (st : PeerSyncState) (hu : Int) (bh : Option Hash)
    (isRule isCorrupt : Bool)
    (hst : List.lookup pid s.peerStates = some st)
    (hok : b.hash ∈ st.requestedBlocks ∨ s.regTest = true)
    (hext : Netsync.coinbaseHeightInfo b = some (hu, bh))
    (hpb : ora.processBlock b.hash = .err isRule isCorrupt) :
    (hu + 1 ≤ ora.bestChainHeight →
      (isCorrupt = true →
        (Netsync.handleBlockMsg ora s pid b).isCorruptionFault = true) ∧
      (isCorrupt = false →
        (Netsync.handleBlockMsg ora s pid b).isRejected = true ∧
        (Netsync.handleBlockMsg ora s pid b).stateOf.rejectedTxns =
          s.rejectedTxns ∧
        (Netsync.handleBlockMsg ora s pid b).stateOf.nextCheckpoint =
          s.nextCheckpoint ∧
        (Netsync.handleBlockMsg ora s pid b).stateOf.headersFirstMode =
          s.headersFirstMode ∧
        (Netsync.handleBlockMsg ora s pid b).stateOf.syncPeer =
          s.syncPeer)) ∧
    (¬(hu + 1 ≤ ora.bestChainHeight) →
      (Netsync.handleBlockMsg ora s pid b).isRejected = false ∧
      (Netsync.handleBlockMsg ora s pid b).isCorruptionFault = false ∧
      (Netsync.handleBlockMsg ora s pid b).isDone = true) := by
  have hguard : ¬(b.hash ∉ st.requestedBlocks ∧ ¬s.regTest = true) := by
    rcases hok with hmem | hrt
    · intro hcontra
      exact hcontra.1 hmem
    · intro hcontra
      exact hcontra.2 hrt
  unfold Netsync.handleBlockMsg
  rw [hst]
  dsimp only
  rw [if_neg hguard]
  rcases hhf : Netsync.headersFirstCheck s b with ⟨icb, hl1, sh1⟩
  dsimp only
  rw [hext]
  dsimp only
  rw [hpb]
  dsimp only
  constructor
  · intro hle
    rw [if_pos hle]
    constructor
    · intro hc
      rw [hc]
      rfl
    · intro hc
      rw [hc]
      exact ⟨rfl, rfl, rfl, rfl, rfl⟩
  · intro hle
    rw [if_neg hle]
    have hicb : icb = true →
        (GState.nextCheckpoint { s with
          headerList := hl1, startHeader := sh1,
          peerStates := updatePeer s.peerStates pid
            (fun q => { q with requestedBlocks := q.requestedBlocks.erase b.hash }),
          requestedBlocks := s.requestedBlocks.erase b.hash }).isSome = true := by
      intro h
      have : (Netsync.headersFirstCheck s b).1 = true := by rw [hhf]; exact h
      exact headersFirstCheck_fst_some s b this
    exact ⟨blockMsgTail_not_rejected _ _ _ _ _ _ _,
           blockMsgTail_not_corrupt _ _ _ _ _ _ _,
           blockMsgTail_isDone _ _ _ _ _ _ _ hicb⟩

/-- Witness for c1_amended: a version-1 block (extracted height 0, so
0 + 1 ≤ 5 holds) rejected by a rule error from known peer 1 lands on the
reject path with the frame intact. -/
theorem c1_witness :
    (List.lookup 1 sReq5.peerStates = some stHold5 ∧
      ((5 : Nat) ∈ stHold5.requestedBlocks ∨ sReq5.regTest = true) ∧
      Netsync.coinbaseHeightInfo bV1 = some (0, none) ∧
      oraRuleErr.processBlock bV1.hash = .err true false) ∧
    (((0 : Int) + 1 ≤ oraRuleErr.bestChainHeight →
      (false = true →
        (Netsync.handleBlockMsg oraRuleErr sReq5 1 bV1).isCorruptionFault = true) ∧
      (false = false →
        (Netsync.handleBlockMsg oraRuleErr sReq5 1 bV1).isRejected = true ∧
        (Netsync.handleBlockMsg oraRuleErr sReq5 1 bV1).stateOf.rejectedTxns =
          sReq5.rejectedTxns ∧
        (Netsync.handleBlockMsg oraRuleErr sReq5 1 bV1).stateOf.nextCheckpoint =
          sReq5.nextCheckpoint ∧
        (Netsync.handleBlockMsg oraRuleErr sReq5 1 bV1).stateOf.headersFirstMode =
          sReq5.headersFirstMode ∧
        (Netsync.handleBlockMsg oraRuleErr sReq5 1 bV1).stateOf.syncPeer =
          sReq5.syncPeer)) ∧
    (¬((0 : Int) + 1 ≤ oraRuleErr.bestChainHeight) →
      (Netsync.handleBlockMsg oraRuleErr sReq5 1 bV1).isRejected = false ∧
      (Netsync.handleBlockMsg oraRuleErr sReq5 1 bV1).isCorruptionFault = false ∧
      (Netsync.handleBlockMsg oraRuleErr sReq5 1 bV1).isDone = true)) :=
  ⟨⟨by decide, by decide, by decide, by decide⟩,
   c1_amended oraRuleErr sReq5 1 bV1 stHold5 0 none true false
     (by decide) (Or.inl (by decide)) (by decide) (by decide)⟩

end ClaimC1

section ClaimC3

open Pod Netsync Fixtures

/-- pickLeast returns a member of every nonempty map. -/
theorem pickLeast_mem (m : Finset Hash) (hm : m.Nonempty) :
    Netsync.pickLeast m ∈ m := by
  unfold Netsync.pickLeast
  rcases hs : m.sort (· ≤ ·) with _ | ⟨a, l⟩
  · exfalso
    have hlen := Finset.length_sort (α := Hash) (· ≤ ·) (s := m)
    rw [hs] at hlen
    have hpos := Finset.Nonempty.card_pos hm
    simp at hlen
    omega
  · have ha : a ∈ m.sort (· ≤ ·) := by
      rw [hs]
      exact List.mem_cons_self a l
    exact (Finset.mem_sort (α := Hash) (· ≤ ·)).1 ha

/-- An insertion followed by limitMap keeps a map within its cap, given
an eviction choice that picks members. -/
theorem limitMap_card_le (m : Finset Hash) (h : Hash) (limit : Nat)
    (pick : Finset Hash → Hash)
    (hm : m.card ≤ limit)
    (hpick : ∀ m' : Finset Hash, m'.Nonempty → pick m' ∈ m') :
    (Netsync.limitMap (insert h m) limit pick).card ≤ limit := by
  unfold Netsync.limitMap
  split
  · have hne : (insert h m).Nonempty := ⟨h, Finset.mem_insert_self h m⟩
    rw [Finset.card_erase_of_mem (hpick _ hne)]
    have hle : (insert h m).card ≤ m.card + 1 := Finset.card_insert_le h m
    omega
  · rename_i hgt
    omega

/-- CapsOk is insensitive to a peer-state update paired with a bounded
replacement of the requested-blocks map. -/
theorem capsOk_update_blocks (s : GState) (rb : Finset Hash)
    (ps : List (PeerId × PeerSyncState)) (hc : Netsync.CapsOk s)
    (hrb : rb.card ≤ Netsync.maxRequestedBlocks) :
    Netsync.CapsOk { s with requestedBlocks := rb, peerStates := ps } :=
  ⟨hc.1, hrb, hc.2.2⟩

/-- CapsOk is insensitive to a peer-state update paired with a bounded
replacement of the requested-transactions map. -/
theorem capsOk_update_txns (s : GState) (rt : Finset Hash)
    (ps : List (PeerId × PeerSyncState)) (hc : Netsync.CapsOk s)
    (hrt : rt.card ≤ Netsync.maxRequestedTxns) :
    Netsync.CapsOk { s with requestedTxns := rt, peerStates := ps } :=
  ⟨hc.1, hc.2.1, hrt⟩

/-- Unfolding equation for invDrain on the empty queue. -/
theorem invDrain_nil_eq (pickB pickT : Finset Hash → Hash) (pid : PeerId)
    (n : Nat) (s : GState) (gd : List InvVect) :
    Netsync.invDrain pickB pickT pid [] n s gd = (s, [], gd) := rfl

/-- Unfolding equation for invDrain on a nonempty queue. -/
theorem invDrain_cons_eq (pickB pickT : Finset Hash → Hash) (pid : PeerId)
    (iv : InvVect) (rest : List InvVect) (n : Nat) (s : GState)
    (gd : List InvVect) :
    Netsync.invDrain pickB pickT pid (iv :: rest) n s gd =
      (let (s1, gd1, n1) :=
        match iv.invType with
        | .block =>
          if iv.hash ∉ s.requestedBlocks then
            let rb := Netsync.limitMap (insert iv.hash s.requestedBlocks)
              Netsync.maxRequestedBlocks pickB
            ({ s with requestedBlocks := rb,
                      peerStates := Netsync.updatePeer s.peerStates pid
                        (fun q => { q with requestedBlocks := insert iv.hash q.requestedBlocks }) },
             gd ++ [iv], n + 1)
          else (s, gd, n)
        | .tx =>
          if iv.hash ∉ s.requestedTxns then
            let rt := Netsync.limitMap (insert iv.hash s.requestedTxns)
              Netsync.maxRequestedTxns pickT
            ({ s with requestedTxns := rt,
                      peerStates := Netsync.updatePeer s.peerStates pid
                        (fun q => { q with requestedTxns := insert iv.hash q.requestedTxns }) },
             gd ++ [iv], n + 1)
          else (s, gd, n)
        | .other => (s, gd, n)
      if n1 ≥ Netsync.MaxInvPerMsg then (s1, rest, gd1)
      else Netsync.invDrain pickB pickT pid rest n1 s1 gd1) := rfl

/-- The getdata drain of handleInvMsg preserves the map caps when the
eviction choices pick members. -/
theorem invDrain_caps (pickB pickT : Finset Hash → Hash) (pid : PeerId)
    (hpB : ∀ m : Finset Hash, m.Nonempty → pickB m ∈ m)
    (hpT : ∀ m : Finset Hash, m.Nonempty → pickT m ∈ m) :
    ∀ (queue : List InvVect) (n : Nat) (s : GState) (gd : List InvVect),
      Netsync.CapsOk s →
      Netsync.CapsOk (Netsync.invDrain pickB pickT pid queue n s gd).1 := by
  intro queue
  induction queue with
  | nil =>
    intro n s gd hc
    rw [invDrain_nil_eq]
    exact hc
  | cons iv rest ih =>
    intro n s gd hc
    rw [invDrain_cons_eq]
    dsimp only
    rcases iv with ⟨ty, h⟩
    rcases ty
    · -- block inventory
      dsimp only
      by_cases hmem : h ∉ s.requestedBlocks
      · rw [if_pos hmem]
        dsimp only
        have hc1 := capsOk_update_blocks s _
          (Netsync.updatePeer s.peerStates pid
            (fun q => { q with requestedBlocks := insert h q.requestedBlocks }))
          hc (limitMap_card_le s.requestedBlocks h _ pickB hc.2.1 hpB)
        split
        · exact hc1
        · exact ih _ _ _ hc1
      · rw [if_neg hmem]
        dsimp only
        split
        · exact hc
        · exact ih _ _ _ hc
    · -- transaction inventory
      dsimp only
      by_cases hmem : h ∉ s.requestedTxns
      · rw [if_pos hmem]
        dsimp only
        have hc1 := capsOk_update_txns s _
          (Netsync.updatePeer s.peerStates pid
            (fun q => { q with requestedTxns := insert h q.requestedTxns }))
          hc (limitMap_card_le s.requestedTxns h _ pickT hc.2.2 hpT)
        split
        · exact hc1
        · exact ih _ _ _ hc1
      · rw [if_neg hmem]
        dsimp only
        split
        · exact hc
        · exact ih _ _ _ hc
    · -- unsupported inventory
      dsimp only
      split
      · exact hc
      · exact ih _ _ _ hc

/-- C3 counterexample: from a state satisfying every cap with the global
requestedBlocks exactly at maxRequestedBlocks, one fetchHeaderBlocks call
(sync peer below the in-flight minimum, one fresh header) grows the map
to maxRequestedBlocks + 1: this insertion path evicts nothing. -/
theorem c3_counterexample :
    Netsync.CapsOk sAtCap ∧
    (Netsync.fetchHeaderBlocks oraBase sAtCap).1.requestedBlocks.card =
      Netsync.maxRequestedBlocks + 1 := by
  constructor
  · refine ⟨by simp [sAtCap, Netsync.maxRejectedTxns], ?_,
      by simp [sAtCap, Netsync.maxRequestedTxns]⟩
    simp [sAtCap, Finset.card_range]
  · unfold Netsync.fetchHeaderBlocks
    rw [show sAtCap.startHeader = some 0 from rfl]
    dsimp only
    rw [show sAtCap.headerList.drop 0 =
      [(⟨1, Netsync.maxRequestedBlocks⟩ : HeaderNode)] from rfl]
    unfold Netsync.fetchLoop
    rw [show (Netsync.haveInventory oraBase
      ⟨.block, Netsync.maxRequestedBlocks⟩).1 = false from rfl]
    dsimp only
    rw [if_neg (by norm_num [Netsync.MaxInvPerMsg])]
    unfold Netsync.fetchLoop
    dsimp only
    rw [if_pos (show ¬false = true by decide)]
    dsimp only
    rw [show sAtCap.requestedBlocks = Finset.range Netsync.maxRequestedBlocks
      from rfl]
    rw [Finset.card_insert_of_not_mem (by simp), Finset.card_range]

/-- C3 (corrected): the bounds |rejectedTxns| ≤ 1000,
|requestedBlocks| ≤ MaxInvPerMsg and |requestedTxns| ≤ MaxInvPerMsg are
preserved by the limitMap-guarded insertion paths — handleInvMsg's getdata
drain and handleTxMsg's rejected-transaction insertion — where an
insertion at the cap evicts exactly one (arbitrary) entry; but the
headers-first fetchHeaderBlocks path inserts into requestedBlocks with no
eviction, so the requestedBlocks bound does not hold on that path (see
the counterexample). -/
theorem c3_amended (ora : ChainOracle) (pickB pickT : Finset Hash → Hash)
    (s : GState)
    (hpB : ∀ m : Finset Hash, m.Nonempty → pickB m ∈ m)
    (hpT : ∀ m : Finset Hash, m.Nonempty → pickT m ∈ m)
    (hcaps : Netsync.CapsOk s) :
    (∀ (pid : PeerId) (invVects : List InvVect),
      Netsync.CapsOk (Netsync.handleInvMsg ora pickB pickT s pid invVects).1) ∧
    (∀ (pid : PeerId) (tx : Tx),
      Netsync.CapsOk (Netsync.handleTxMsg ora pickT s pid tx).1) ∧
    (∀ (m : Finset Hash) (h : Hash), m.card = Netsync.maxRequestedBlocks →
      h ∉ m →
      (Netsync.limitMap (insert h m) Netsync.maxRequestedBlocks pickB).card =
        Netsync.maxRequestedBlocks) := by
  refine ⟨?_, ?_, ?_⟩
  · intro pid invVects
    unfold Netsync.handleInvMsg
    rcases hlk : List.lookup pid s.peerStates with _ | st
    · exact hcaps
    · dsimp only
      split
      · exact hcaps
      · have hcap1 := invDrain_caps pickB pickT pid hpB hpT
          (Netsync.invScanQueue ora s.headersFirstMode s.rejectedTxns
            st.requestQueue invVects) 0 s [] hcaps
        rcases hdr : Netsync.invDrain pickB pickT pid
          (Netsync.invScanQueue ora s.headersFirstMode s.rejectedTxns
            st.requestQueue invVects) 0 s [] with ⟨s1, leftover, gd⟩
        rw [hdr] at hcap1
        exact ⟨hcap1.1, hcap1.2.1, hcap1.2.2⟩
  · intro pid tx
    unfold Netsync.handleTxMsg
    rcases List.lookup pid s.peerStates with _ | st
    · exact hcaps
    · dsimp only
      split
      · exact hcaps
      · rcases ora.processTx tx.hash with accepted | isRule
        · dsimp only
          exact ⟨hcaps.1, hcaps.2.1,
            le_trans Finset.card_erase_le hcaps.2.2⟩
        · dsimp only
          refine ⟨?_, hcaps.2.1, le_trans Finset.card_erase_le hcaps.2.2⟩
          exact limitMap_card_le _ tx.hash _ pickT hcaps.1 hpT
  · intro m h hcard hmem
    unfold Netsync.limitMap
    rw [if_pos (by rw [Finset.card_insert_of_not_mem hmem, hcard]; omega)]
    have hne : (insert h m).Nonempty := ⟨h, Finset.mem_insert_self h m⟩
    rw [Finset.card_erase_of_mem (hpB _ hne),
      Finset.card_insert_of_not_mem hmem, hcard]
    omega

/-- Witness for c3_amended on the idle state with pickLeast evictions. -/
theorem c3_witness :
    Netsync.CapsOk sIdle ∧
    ((∀ (pid : PeerId) (invVects : List InvVect),
      Netsync.CapsOk
        (Netsync.handleInvMsg oraBase Netsync.pickLeast Netsync.pickLeast
          sIdle pid invVects).1) ∧
    (∀ (pid : PeerId) (tx : Tx),
      Netsync.CapsOk
        (Netsync.handleTxMsg oraBase Netsync.pickLeast sIdle pid tx).1) ∧
    (∀ (m : Finset Hash) (h : Hash), m.card = Netsync.maxRequestedBlocks →
      h ∉ m →
      (Netsync.limitMap (insert h m) Netsync.maxRequestedBlocks
        Netsync.pickLeast).card = Netsync.maxRequestedBlocks)) :=
  ⟨by decide,
   c3_amended oraBase Netsync.pickLeast Netsync.pickLeast sIdle
     pickLeast_mem pickLeast_mem (by decide)⟩

end ClaimC3

section ClaimC2

open Pod Netsync Fixtures

/-- Containment only depends on the peer states and the global
requested-blocks map. -/
theorem containment_congr (s s' : GState)
    (hps : s'.peerStates = s.peerStates)
    (hrb : s'.requestedBlocks = s.requestedBlocks)
    (hc : Netsync.Containment s) : Netsync.Containment s' := by
  intro q hq
  rw [hps] at hq
  rw [hrb]
  exact hc q hq

/-- Containment survives a per-peer update that does not touch the
requested-blocks component while the global map only grows. -/
theorem containment_updatePeer_frame (s s' : GState) (pid : PeerId)
    (f : PeerSyncState → PeerSyncState)
    (hf : ∀ q, (f q).requestedBlocks = q.requestedBlocks)
    (hps : s'.peerStates = Netsync.updatePeer s.peerStates pid f)
    (hrb : s.requestedBlocks ⊆ s'.requestedBlocks)
    (hc : Netsync.Containment s) : Netsync.Containment s' := by
  intro q hq
  rw [hps] at hq
  rcases List.mem_map.1 hq with ⟨r, hr, hrq⟩
  by_cases hpid : r.1 = pid
  · rw [if_pos hpid] at hrq
    subst hrq
    dsimp only
    rw [hf]
    exact subset_trans (hc r hr) hrb
  · rw [if_neg hpid] at hrq
    subst hrq
    exact subset_trans (hc r hr) hrb

/-- Inserting a hash into both the global map and the per-peer set of one
peer preserves containment. -/
theorem containment_insert_both (s : GState) (h : Hash) (pid : PeerId)
    (hc : Netsync.Containment s) :
    Netsync.Containment
      { s with requestedBlocks := insert h s.requestedBlocks,
               peerStates := Netsync.updatePeer s.peerStates pid
                 (fun q => { q with requestedBlocks := insert h q.requestedBlocks }) } := by
  intro q hq
  dsimp only at hq ⊢
  rcases List.mem_map.1 hq with ⟨r, hr, hrq⟩
  by_cases hpid : r.1 = pid
  · rw [if_pos hpid] at hrq
    subst hrq
    exact Finset.insert_subset_insert h (hc r hr)
  · rw [if_neg hpid] at hrq
    subst hrq
    exact subset_trans (hc r hr) (Finset.subset_insert h _)

/-- Growing only the global map preserves containment. -/
theorem containment_grow_global (s s' : GState)
    (hps : s'.peerStates = s.peerStates)
    (hrb : s.requestedBlocks ⊆ s'.requestedBlocks)
    (hc : Netsync.Containment s) : Netsync.Containment s' := by
  intro q hq
  rw [hps] at hq
  exact subset_trans (hc q hq) hrb

/-- Unfolding equation for fetchLoop on the empty node list. -/
theorem fetchLoop_nil_eq (ora : ChainOracle) (idx n : Nat) (s : GState)
    (gd : List Hash) : Netsync.fetchLoop ora [] idx n s gd = (s, gd) := rfl

/-- Unfolding equation for fetchLoop on a nonempty node list. -/
theorem fetchLoop_cons_eq (ora : ChainOracle) (node : HeaderNode)
    (rest : List HeaderNode) (idx n : Nat) (s : GState) (gd : List Hash) :
    Netsync.fetchLoop ora (node :: rest) idx n s gd =
      (let haveInv := (Netsync.haveInventory ora ⟨.block, node.hash⟩).1
      let (s1, gd1, n1) :=
        if ¬haveInv then
          let ps := match s.syncPeer with
            | some sp => Netsync.updatePeer s.peerStates sp
                (fun q => { q with requestedBlocks := insert node.hash q.requestedBlocks })
            | none => s.peerStates
          ({ s with requestedBlocks := insert node.hash s.requestedBlocks,
                    peerStates := ps },
           gd ++ [node.hash], n + 1)
        else (s, gd, n)
      let s2 := { s1 with
        startHeader := if rest.isEmpty then none else some (idx + 1) }
      if n1 ≥ Netsync.MaxInvPerMsg then (s2, gd1)
      else Netsync.fetchLoop ora rest (idx + 1) n1 s2 gd1) := rfl

/-- The fetchHeaderBlocks walk preserves containment: every requested
hash is recorded in the global map, and in the sync-peer set when that
peer is tracked. -/
theorem fetchLoop_containment (ora : ChainOracle) :
    ∀ (nodes : List HeaderNode) (idx n : Nat) (s : GState) (gd : List Hash),
      Netsync.Containment s →
      Netsync.Containment (Netsync.fetchLoop ora nodes idx n s gd).1 := by
  intro nodes
  induction nodes with
  | nil =>
    intro idx n s gd hc
    rw [fetchLoop_nil_eq]
    exact hc
  | cons node rest ih =>
    intro idx n s gd hc
    rw [fetchLoop_cons_eq]
    dsimp only
    cases hhave : (Netsync.haveInventory ora ⟨.block, node.hash⟩).1 with
    | true =>
      rw [if_neg (show ¬(¬(true : Bool) = true) by decide)]
      dsimp only
      split
      · exact containment_congr _ _ rfl rfl hc
      · apply ih
        exact containment_congr _ _ rfl rfl hc
    | false =>
      rw [if_pos (show ¬(false : Bool) = true by decide)]
      dsimp only
      cases hsp : s.syncPeer with
      | none =>
        dsimp only
        have hc1 : Netsync.Containment
            { s with requestedBlocks := insert node.hash s.requestedBlocks,
                     peerStates := s.peerStates } :=
          containment_grow_global s _ rfl (Finset.subset_insert _ _) hc
        split
        · exact containment_congr _ _ rfl rfl hc1
        · apply ih
          exact containment_congr _ _ rfl rfl hc1
      | some sp =>
        dsimp only
        have hc1 := containment_insert_both s node.hash sp hc
        split
        · exact containment_congr _ _ rfl rfl hc1
        · apply ih
          exact containment_congr _ _ rfl rfl hc1

/-- fetchHeaderBlocks preserves containment. -/
theorem fetchHeaderBlocks_containment (ora : ChainOracle) (s : GState)
    (hc : Netsync.Containment s) :
    Netsync.Containment (Netsync.fetchHeaderBlocks ora s).1 := by
  unfold Netsync.fetchHeaderBlocks
  rcases s.startHeader with _ | i
  · exact hc
  · exact fetchLoop_containment ora _ i 0 s [] hc

/-- startSync never changes the peer-state map. -/
theorem startSync_peerStates_eq (ora : ChainOracle) (s : GState) :
    (Netsync.startSync ora s).peerStates = s.peerStates := by
  unfold Netsync.startSync
  dsimp only
  repeat' split
  all_goals rfl

/-- startSync preserves containment when every per-peer requested-blocks
set is empty. -/
theorem startSync_containment_of_empty (ora : ChainOracle) (s : GState)
    (hemp : ∀ q ∈ s.peerStates, q.2.requestedBlocks = (∅ : Finset Hash)) :
    Netsync.Containment (Netsync.startSync ora s) := by
  intro q hq
  rw [startSync_peerStates_eq] at hq
  rw [hemp q hq]
  exact Finset.empty_subset _

/-- resetHeaderState never changes the peer-state map or the global
requested maps. -/
theorem resetHeaderState_frame (h : Hash) (ht : Int) (s : GState) :
    (Netsync.resetHeaderState h ht s).peerStates = s.peerStates ∧
    (Netsync.resetHeaderState h ht s).requestedBlocks = s.requestedBlocks := by
  unfold Netsync.resetHeaderState
  dsimp only
  constructor <;> (split <;> rfl)

/-- handleTxMsg preserves containment: it never touches the block maps. -/
theorem handleTxMsg_containment (ora : ChainOracle)
    (pickT : Finset Hash → Hash) (s : GState) (pid : PeerId) (tx : Tx)
    (hc : Netsync.Containment s) :
    Netsync.Containment (Netsync.handleTxMsg ora pickT s pid tx).1 := by
  unfold Netsync.handleTxMsg
  rcases List.lookup pid s.peerStates with _ | st
  · exact hc
  · dsimp only
    split
    · exact hc
    · rcases ora.processTx tx.hash with accepted | isRule
      · dsimp only
        exact containment_updatePeer_frame s _ pid
          (fun q => { q with requestedTxns := q.requestedTxns.erase tx.hash })
          (fun q => rfl) rfl (subset_refl _) hc
      · dsimp only
        exact containment_updatePeer_frame s _ pid
          (fun q => { q with requestedTxns := q.requestedTxns.erase tx.hash })
          (fun q => rfl) rfl (subset_refl _) hc

/-- handleHeadersMsg preserves containment: the linking loop only touches
the header list and start header, and the checkpoint path defers to
fetchHeaderBlocks. -/
theorem handleHeadersMsg_containment (ora : ChainOracle) (s : GState)
    (pid : PeerId) (headers : List Header)
    (hc : Netsync.Containment s) :
    Netsync.Containment (Netsync.handleHeadersMsg ora s pid headers).1 := by
  unfold Netsync.handleHeadersMsg
  repeat' split
  all_goals dsimp only
  all_goals first
    | exact hc
    | exact containment_congr _ _ rfl rfl hc
    | exact fetchHeaderBlocks_containment ora _
        (containment_congr _ _ rfl rfl hc)

/-- The post-ProcessBlock tail of handleBlockMsg preserves containment in
every outcome. -/
theorem blockMsgTail_containment (ora : ChainOracle) (s1 : GState)
    (pid : PeerId) (icb : Bool) (hu : Int) (bh : Option Hash) (io : Bool)
    (hc : Netsync.Containment s1) :
    Netsync.Containment
      (Netsync.blockMsgTail ora s1 pid icb hu bh io).stateOf := by
  unfold Netsync.blockMsgTail
  dsimp only
  repeat' split
  all_goals dsimp only [Netsync.BlockOutcome.stateOf]
  all_goals first
    | exact containment_congr _ _ rfl rfl hc
    | exact fetchHeaderBlocks_containment ora _
        (containment_congr _ _ rfl rfl hc)

/-- handleBlockMsg preserves containment in every outcome, provided the
block hash is not held in-flight by a different peer. -/
theorem handleBlockMsg_containment (ora : ChainOracle) (s : GState)
    (pid : PeerId) (b : Block)
    (hother : ∀ q ∈ s.peerStates, q.1 ≠ pid → b.hash ∉ q.2.requestedBlocks)
    (hc : Netsync.Containment s) :
    Netsync.Containment (Netsync.handleBlockMsg ora s pid b).stateOf := by
  unfold Netsync.handleBlockMsg
  rcases List.lookup pid s.peerStates with _ | st
  · exact hc
  · dsimp only
    split
    · exact hc
    · rcases Netsync.headersFirstCheck s b with ⟨icb, hl1, sh1⟩
      dsimp only
      have hc1 : Netsync.Containment
          { s with headerList := hl1, startHeader := sh1,
                   peerStates := Netsync.updatePeer s.peerStates pid
                     (fun q => { q with requestedBlocks := q.requestedBlocks.erase b.hash }),
                   requestedBlocks := s.requestedBlocks.erase b.hash } := by
        intro q hq
        dsimp only at hq ⊢
        rcases List.mem_map.1 hq with ⟨r, hr, hrq⟩
        by_cases hpid : r.1 = pid
        · rw [if_pos hpid] at hrq
          subst hrq
          dsimp only
          exact Finset.erase_subset_erase _ (hc r hr)
        · rw [if_neg hpid] at hrq
          subst hrq
          rw [Finset.subset_erase]
          exact ⟨hc r hr, hother r hr hpid⟩
      rcases Netsync.coinbaseHeightInfo b with _ | ⟨hu2, bh2⟩
      · exact hc1
      · dsimp only
        rcases ora.processBlock b.hash with ⟨isMain, isOrphan⟩ |
          ⟨isRule, isCorrupt⟩
        · dsimp only
          exact blockMsgTail_containment ora _ pid icb hu2 bh2 isOrphan hc1
        · dsimp only
          split
          · split
            · exact hc1
            · exact hc1
          · exact blockMsgTail_containment ora _ pid icb hu2 bh2 true hc1

/-- handleDonePeerMsg preserves containment provided the departing peer's
in-flight blocks are disjoint from every other peer's, and, when the
departing peer was the sync peer, every remaining per-peer set is empty
(so the subsequent startSync clearing is harmless). -/
theorem handleDonePeerMsg_containment (ora : ChainOracle) (s : GState)
    (pid : PeerId)
    (hdisj : ∀ q ∈ s.peerStates, ∀ r ∈ s.peerStates, q.1 = pid →
      r.1 ≠ pid → Disjoint q.2.requestedBlocks r.2.requestedBlocks)
    (hsync : s.syncPeer = some pid →
      ∀ q ∈ s.peerStates, q.1 ≠ pid →
        q.2.requestedBlocks = (∅ : Finset Hash))
    (hc : Netsync.Containment s) :
    Netsync.Containment (Netsync.handleDonePeerMsg ora s pid) := by
  unfold Netsync.handleDonePeerMsg
  rcases hlk : List.lookup pid s.peerStates with _ | st
  · exact hc
  · dsimp only
    have hmem := mem_of_lookup_some hlk
    have hremove : ∀ q ∈ Netsync.removePeer s.peerStates pid,
        q ∈ s.peerStates ∧ q.1 ≠ pid := by
      intro q hq
      have hfil := List.mem_filter.1 hq
      exact ⟨hfil.1, by simpa using hfil.2⟩
    have hc1 : Netsync.Containment
        { s with peerStates := Netsync.removePeer s.peerStates pid,
                 requestedTxns := s.requestedTxns \ st.requestedTxns,
                 requestedBlocks := s.requestedBlocks \ st.requestedBlocks } := by
      intro q hq
      dsimp only at hq ⊢
      obtain ⟨hqs, hqne⟩ := hremove q hq
      intro x hx
      rw [Finset.mem_sdiff]
      refine ⟨hc q hqs hx, ?_⟩
      have hd := hdisj (pid, st) hmem q hqs rfl hqne
      exact fun hxs => Finset.disjoint_left.1 hd hxs hx
    split
    · rename_i hsp
      apply startSync_containment_of_empty
      intro q hq
      have hq2 : q ∈ Netsync.removePeer s.peerStates pid := by
        revert hq
        split
        · intro hq
          rw [(resetHeaderState_frame _ _ _).1] at hq
          exact hq
        · intro hq
          exact hq
      obtain ⟨hqs, hqne⟩ := hremove q hq2
      exact hsync hsp q hqs hqne
    · exact hc1

/-- handleNewPeerMsg preserves containment provided every tracked peer's
requested-blocks set is empty whenever the call will reach startSync's
clearing of the global map. -/
theorem handleNewPeerMsg_containment (ora : ChainOracle) (s : GState)
    (pid : PeerId)
    (hempty : (Netsync.isSyncCandidate ora s.regTest pid = true ∧
        s.syncPeer = none) →
      ∀ q ∈ s.peerStates, q.2.requestedBlocks = (∅ : Finset Hash))
    (hc : Netsync.Containment s) :
    Netsync.Containment (Netsync.handleNewPeerMsg ora s pid) := by
  unfold Netsync.handleNewPeerMsg
  split
  · exact hc
  · dsimp only
    have hup : ∀ q ∈ Netsync.upsertPeer s.peerStates pid
        ⟨Netsync.isSyncCandidate ora s.regTest pid, [], ∅, ∅⟩,
        q ∈ s.peerStates ∨
          q.2 = (⟨Netsync.isSyncCandidate ora s.regTest pid, [], ∅, ∅⟩ :
            PeerSyncState) := by
      intro q hq
      unfold Netsync.upsertPeer at hq
      split at hq
      · rcases List.mem_map.1 hq with ⟨r, hr, hrq⟩
        by_cases hpid : r.1 = pid
        · rw [if_pos hpid] at hrq
          subst hrq
          exact Or.inr rfl
        · rw [if_neg hpid] at hrq
          subst hrq
          exact Or.inl hr
      · rcases List.mem_append.1 hq with hq1 | hq1
        · exact Or.inl hq1
        · simp at hq1
          exact Or.inr (by rw [hq1])
    split
    · rename_i hcond
      apply startSync_containment_of_empty
      intro q hq
      dsimp only at hq
      rcases hup q hq with hold | hnew
      · exact hempty ⟨hcond.1, hcond.2⟩ q hold
      · rw [hnew]
    · intro q hq
      dsimp only at hq ⊢
      rcases hup q hq with hold | hnew
      · exact hc q hold
      · rw [hnew]
        exact Finset.empty_subset _

/-- A member that avoids the protected set U survives limitMap whenever
the eviction choice always avoids U. -/
theorem limitMap_mem_of_avoid (m : Finset Hash) (limit : Nat)
    (pick : Finset Hash → Hash) (U : Finset Hash)
    (hpick : pick m ∉ U) (x : Hash) (hx : x ∈ m) (hxU : x ∈ U) :
    x ∈ Netsync.limitMap m limit pick := by
  unfold Netsync.limitMap
  split
  · exact Finset.mem_erase.2 ⟨fun he => hpick (he ▸ hxU), hx⟩
  · exact hx

/-- Every tracked per-peer requested-blocks set sits inside the union of
all of them. -/
theorem subset_allPeerBlocks :
    ∀ (l : List (PeerId × PeerSyncState)) (q : PeerId × PeerSyncState),
      q ∈ l → q.2.requestedBlocks ⊆ Netsync.allPeerBlocks l := by
  intro l
  induction l with
  | nil =>
    intro q hq
    simp at hq
  | cons hd tl ih =>
    intro q hq
    rcases List.mem_cons.1 hq with hq1 | hq1
    · subst hq1
      exact Finset.subset_union_left
    · exact subset_trans (ih q hq1) Finset.subset_union_right

/-- Block hashes of a queue headed by a block inventory vector. -/
theorem queueBlockHashes_cons_block (h : Hash) (rest : List InvVect) :
    Netsync.queueBlockHashes (⟨.block, h⟩ :: rest) =
      insert h (Netsync.queueBlockHashes rest) := rfl

/-- Block hashes of a queue headed by a transaction inventory vector. -/
theorem queueBlockHashes_cons_tx (h : Hash) (rest : List InvVect) :
    Netsync.queueBlockHashes (⟨.tx, h⟩ :: rest) =
      Netsync.queueBlockHashes rest := rfl

/-- Block hashes of a queue headed by an unsupported inventory vector. -/
theorem queueBlockHashes_cons_other (h : Hash) (rest : List InvVect) :
    Netsync.queueBlockHashes (⟨.other, h⟩ :: rest) =
      Netsync.queueBlockHashes rest := rfl

/-- A per-peer update preserving requested-blocks components preserves a
uniform bound on them. -/
theorem bound_updatePeer_frame (l : List (PeerId × PeerSyncState))
    (pid : PeerId) (f : PeerSyncState → PeerSyncState)
    (hf : ∀ q, (f q).requestedBlocks = q.requestedBlocks)
    (U : Finset Hash)
    (hb : ∀ q ∈ l, q.2.requestedBlocks ⊆ U) :
    ∀ q ∈ Netsync.updatePeer l pid f, q.2.requestedBlocks ⊆ U := by
  intro q hq
  rcases List.mem_map.1 hq with ⟨r, hr, hrq⟩
  by_cases hpid : r.1 = pid
  · rw [if_pos hpid] at hrq
    subst hrq
    dsimp only
    rw [hf]
    exact hb r hr
  · rw [if_neg hpid] at hrq
    subst hrq
    exact hb r hr

/-- One drain insertion of a block hash preserves containment and the
uniform bound, when the inserted hash lies in the protected set U and
evictions avoid U. -/
theorem containment_drain_insert (s : GState) (h : Hash) (pid : PeerId)
    (pickB : Finset Hash → Hash) (U : Finset Hash)
    (hpickB : ∀ m : Finset Hash, pickB m ∉ U)
    (hc : Netsync.Containment s)
    (hbound : ∀ q ∈ s.peerStates, q.2.requestedBlocks ⊆ U)
    (hhU : h ∈ U) :
    Netsync.Containment
      { s with requestedBlocks := Netsync.limitMap (insert h s.requestedBlocks) Netsync.maxRequestedBlocks pickB, peerStates := Netsync.updatePeer s.peerStates pid (fun q => { q with requestedBlocks := insert h q.requestedBlocks }) } ∧
    (∀ q ∈ Netsync.updatePeer s.peerStates pid
        (fun q => { q with requestedBlocks := insert h q.requestedBlocks }),
      q.2.requestedBlocks ⊆ U) := by
  have hA : ∀ x ∈ insert h s.requestedBlocks, x ∈ U →
      x ∈ Netsync.limitMap (insert h s.requestedBlocks)
        Netsync.maxRequestedBlocks pickB :=
    fun x hx hxU =>
      limitMap_mem_of_avoid _ _ _ U (hpickB _) x hx hxU
  constructor
  · intro q hq
    dsimp only at hq ⊢
    rcases List.mem_map.1 hq with ⟨r, hr, hrq⟩
    by_cases hpid : r.1 = pid
    · rw [if_pos hpid] at hrq
      subst hrq
      dsimp only
      intro x hx
      rcases Finset.mem_insert.1 hx with hx1 | hx1
      · subst hx1
        exact hA x (Finset.mem_insert_self x _) hhU
      · exact hA x (Finset.mem_insert_of_mem (hc r hr hx1))
          (hbound r hr hx1)
    · rw [if_neg hpid] at hrq
      subst hrq
      intro x hx
      exact hA x (Finset.mem_insert_of_mem (hc r hr hx)) (hbound r hr hx)
  · intro q hq
    rcases List.mem_map.1 hq with ⟨r, hr, hrq⟩
    by_cases hpid : r.1 = pid
    · rw [if_pos hpid] at hrq
      subst hrq
      dsimp only
      exact Finset.insert_subset_iff.2 ⟨hhU, hbound r hr⟩
    · rw [if_neg hpid] at hrq
      subst hrq
      exact hbound r hr

/-- The getdata drain preserves containment when every eviction avoids
the union U of all per-peer requested blocks and the queued block
hashes. -/
theorem invDrain_containment (pickB pickT : Finset Hash → Hash)
    (pid : PeerId) (U : Finset Hash)
    (hpickB : ∀ m : Finset Hash, pickB m ∉ U) :
    ∀ (queue : List InvVect) (n : Nat) (s : GState) (gd : List InvVect),
      Netsync.Containment s →
      (∀ q ∈ s.peerStates, q.2.requestedBlocks ⊆ U) →
      Netsync.queueBlockHashes queue ⊆ U →
      Netsync.Containment (Netsync.invDrain pickB pickT pid queue n s gd).1 := by
  intro queue
  induction queue with
  | nil =>
    intro n s gd hc _ _
    rw [invDrain_nil_eq]
    exact hc
  | cons iv rest ih =>
    intro n s gd hc hbound hqU
    rw [invDrain_cons_eq]
    dsimp only
    rcases iv with ⟨ty, h⟩
    rcases ty
    · -- block inventory
      dsimp only
      rw [queueBlockHashes_cons_block] at hqU
      have hhU : h ∈ U := hqU (Finset.mem_insert_self h _)
      have hrestU : Netsync.queueBlockHashes rest ⊆ U :=
        subset_trans (Finset.subset_insert h _) hqU
      by_cases hmem : h ∉ s.requestedBlocks
      · rw [if_pos hmem]
        dsimp only
        obtain ⟨hc1, hb1⟩ :=
          containment_drain_insert s h pid pickB U hpickB hc hbound hhU
        split
        · exact hc1
        · exact ih _ _ _ hc1 hb1 hrestU
      · rw [if_neg hmem]
        dsimp only
        split
        · exact hc
        · exact ih _ _ _ hc hbound hrestU
    · -- transaction inventory
      dsimp only
      rw [queueBlockHashes_cons_tx] at hqU
      by_cases hmem : h ∉ s.requestedTxns
      · rw [if_pos hmem]
        dsimp only
        have hc1 : Netsync.Containment
            { s with requestedTxns := Netsync.limitMap (insert h s.requestedTxns) Netsync.maxRequestedTxns pickT, peerStates := Netsync.updatePeer s.peerStates pid (fun q => { q with requestedTxns := insert h q.requestedTxns }) } :=
          containment_updatePeer_frame s _ pid
            (fun q => { q with requestedTxns := insert h q.requestedTxns })
            (fun q => rfl) rfl (subset_refl _) hc
        have hb1 := bound_updatePeer_frame s.peerStates pid
          (fun q => { q with requestedTxns := insert h q.requestedTxns })
          (fun q => rfl) U hbound
        split
        · exact hc1
        · exact ih _ _ _ hc1 hb1 hqU
      · rw [if_neg hmem]
        dsimp only
        split
        · exact hc
        · exact ih _ _ _ hc hbound hqU
    · -- unsupported inventory
      dsimp only
      rw [queueBlockHashes_cons_other] at hqU
      split
      · exact hc
      · exact ih _ _ _ hc hbound hqU

/-- handleInvMsg preserves containment provided every eviction choice for
the requested-blocks cap avoids both the per-peer in-flight sets and the
block hashes of the drained queue. -/
theorem handleInvMsg_containment (ora : ChainOracle)
    (pickB pickT : Finset Hash → Hash) (s : GState) (pid : PeerId)
    (invVects : List InvVect)
    (hpickB : ∀ m : Finset Hash,
      pickB m ∉ Netsync.allPeerBlocks s.peerStates ∪
        Netsync.queueBlockHashes (Netsync.invFullQueue ora s pid invVects))
    (hc : Netsync.Containment s) :
    Netsync.Containment
      (Netsync.handleInvMsg ora pickB pickT s pid invVects).1 := by
  unfold Netsync.handleInvMsg
  rcases hlk : List.lookup pid s.peerStates with _ | st
  · exact hc
  · dsimp only
    split
    · exact hc
    · have hUq : Netsync.invFullQueue ora s pid invVects =
          Netsync.invScanQueue ora s.headersFirstMode s.rejectedTxns
            st.requestQueue invVects := by
        unfold Netsync.invFullQueue
        rw [hlk]
      have hbound : ∀ q ∈ s.peerStates, q.2.requestedBlocks ⊆
          Netsync.allPeerBlocks s.peerStates ∪
            Netsync.queueBlockHashes
              (Netsync.invFullQueue ora s pid invVects) :=
        fun q hq => subset_trans (subset_allPeerBlocks s.peerStates q hq)
          Finset.subset_union_left
      have hqU : Netsync.queueBlockHashes
          (Netsync.invScanQueue ora s.headersFirstMode s.rejectedTxns
            st.requestQueue invVects) ⊆
          Netsync.allPeerBlocks s.peerStates ∪
            Netsync.queueBlockHashes
              (Netsync.invFullQueue ora s pid invVects) := by
        rw [hUq]
        exact Finset.subset_union_right
      have hdrain := invDrain_containment pickB pickT pid _ hpickB
        (Netsync.invScanQueue ora s.headersFirstMode s.rejectedTxns
          st.requestQueue invVects) 0 s [] hc hbound hqU
      rcases hdr : Netsync.invDrain pickB pickT pid
        (Netsync.invScanQueue ora s.headersFirstMode s.rejectedTxns
          st.requestQueue invVects) 0 s [] with ⟨s1, leftover, gd⟩
      rw [hdr] at hdrain
      exact containment_updatePeer_frame s1 _ pid
        (fun q => { q with requestQueue := leftover })
        (fun q => rfl) rfl (subset_refl _) hdrain

/-- C2 counterexample: three containment-preserving operations of the
claim fail on the code.  (a) startSync from sClear (peer 1 qualifying
with block 5 in flight) clears the global map but not the per-peer set.
(b) handleDonePeerMsg on sShared (peers 1 and 2 both holding block 5,
peer 2 the sync peer) removes the shared hash from the global map while
peer 2 still holds it.  (c) handleInvMsg from the at-cap state sEvict
evicts hash 5 from the global map while peer 1 still holds it. -/
theorem c2_counterexample :
    (Netsync.Containment sClear ∧
      ¬Netsync.Containment (Netsync.startSync oraBase sClear)) ∧
    (Netsync.Containment sShared ∧
      ¬Netsync.Containment (Netsync.handleDonePeerMsg oraBase sShared 1)) ∧
    (Netsync.Containment sEvict ∧
      ¬Netsync.Containment
        (Netsync.handleInvMsg oraBase pickFive pickFive sEvict 2 []).1) := by
  refine ⟨⟨by decide, by decide⟩, ⟨by decide, by decide⟩, ?_, ?_⟩
  · intro q hq
    have hps : sEvict.peerStates = [(1, stHold5), (2, stQueueBig)] := rfl
    rw [hps] at hq
    rcases List.mem_cons.1 hq with hq1 | hq1
    · subst hq1
      intro x hx
      have hx5 : x = 5 := by simpa [stHold5] using hx
      subst hx5
      show (5 : Nat) ∈ Finset.range Netsync.maxRequestedBlocks
      simp [Netsync.maxRequestedBlocks, Netsync.MaxInvPerMsg]
    · rcases List.mem_cons.1 hq1 with hq2 | hq2
      · subst hq2
        intro x hx
        simp [stQueueBig] at hx
      · simp at hq2
  · have hcond1 : ¬(sEvict.syncPeer ≠ some 2 ∧
        ¬Netsync.current oraBase sEvict = true) := by
      intro hcontra
      exact hcontra.1 rfl
    have hnotmem : (Netsync.MaxInvPerMsg : Nat) ∉ sEvict.requestedBlocks := by
      show Netsync.MaxInvPerMsg ∉ Finset.range Netsync.maxRequestedBlocks
      simp [Netsync.maxRequestedBlocks]
    have hover : (insert (Netsync.MaxInvPerMsg : Nat)
        sEvict.requestedBlocks).card + 1 > Netsync.maxRequestedBlocks := by
      rw [Finset.card_insert_of_not_mem hnotmem]
      have hcr : (sEvict.requestedBlocks).card = Netsync.maxRequestedBlocks := by
        show (Finset.range Netsync.maxRequestedBlocks).card = _
        exact Finset.card_range _
      omega
    have heval : Netsync.handleInvMsg oraBase pickFive pickFive sEvict 2 [] =
        ({ sEvict with
            requestedBlocks := (insert (Netsync.MaxInvPerMsg : Nat) sEvict.requestedBlocks).erase 5,
            peerStates := [(1, stHold5), (2, ⟨true, [], ∅, {Netsync.MaxInvPerMsg}⟩)] },
          [⟨.block, Netsync.MaxInvPerMsg⟩]) := by
      unfold Netsync.handleInvMsg
      rw [show List.lookup 2 sEvict.peerStates = some stQueueBig from rfl]
      dsimp only
      rw [if_neg hcond1]
      rw [show Netsync.invScanQueue oraBase sEvict.headersFirstMode
        sEvict.rejectedTxns stQueueBig.requestQueue [] =
        [⟨.block, Netsync.MaxInvPerMsg⟩] from rfl]
      rw [invDrain_cons_eq]
      dsimp only
      rw [if_pos hnotmem]
      dsimp only
      unfold Netsync.limitMap
      rw [if_pos hover]
      rw [if_neg (show ¬(0 + 1 ≥ Netsync.MaxInvPerMsg) by
        norm_num [Netsync.MaxInvPerMsg])]
      rw [invDrain_nil_eq]
      rfl
    rw [heval]
    intro hcon
    have h2 := hcon (1, stHold5) (List.mem_cons_self _ _)
    have h3 : (5 : Nat) ∈
        (insert (Netsync.MaxInvPerMsg : Nat) sEvict.requestedBlocks).erase 5 :=
      h2 (by simp [stHold5])
    simp [Finset.mem_erase] at h3

/-- C2 (corrected): for states whose per-peer requestedBlocks sets are
contained in the global map, the containment is preserved by
fetchHeaderBlocks, handleTxMsg and handleHeadersMsg unconditionally; by
handleBlockMsg provided no other tracked peer holds the processed hash;
by handleInvMsg provided the cap evictions avoid the per-peer sets and
the queued block hashes; by startSync (and hence by the new-peer handler
reaching it) provided every tracked per-peer set is empty when the
global map is cleared; and by handleDonePeerMsg provided the departing
peer's set is disjoint from every remaining one (and the remaining sets
are empty when the departing peer was the sync peer).  Without those
side conditions the containment fails: startSync's clearing, the
done-peer removal of a shared hash, and the cap eviction each violate
it (see the counterexample). -/
theorem c2_amended (ora : ChainOracle) (s : GState)
    (hc : Netsync.Containment s) :
    Netsync.Containment (Netsync.fetchHeaderBlocks ora s).1 ∧
    (∀ (pickT : Finset Hash → Hash) (pid : PeerId) (tx : Tx),
      Netsync.Containment (Netsync.handleTxMsg ora pickT s pid tx).1) ∧
    (∀ (pid : PeerId) (headers : List Header),
      Netsync.Containment (Netsync.handleHeadersMsg ora s pid headers).1) ∧
    (∀ (pid : PeerId) (b : Block),
      (∀ q ∈ s.peerStates, q.1 ≠ pid → b.hash ∉ q.2.requestedBlocks) →
      Netsync.Containment (Netsync.handleBlockMsg ora s pid b).stateOf) ∧
    (∀ (pickB pickT : Finset Hash → Hash) (pid : PeerId)
        (invVects : List InvVect),
      (∀ m : Finset Hash, pickB m ∉ Netsync.allPeerBlocks s.peerStates ∪
        Netsync.queueBlockHashes (Netsync.invFullQueue ora s pid invVects)) →
      Netsync.Containment
        (Netsync.handleInvMsg ora pickB pickT s pid invVects).1) ∧
    ((∀ q ∈ s.peerStates, q.2.requestedBlocks = (∅ : Finset Hash)) →
      Netsync.Containment (Netsync.startSync ora s)) ∧
    (∀ pid : PeerId,
      (∀ q ∈ s.peerStates, ∀ r ∈ s.peerStates, q.1 = pid → r.1 ≠ pid →
        Disjoint q.2.requestedBlocks r.2.requestedBlocks) →
      (s.syncPeer = some pid → ∀ q ∈ s.peerStates, q.1 ≠ pid →
        q.2.requestedBlocks = (∅ : Finset Hash)) →
      Netsync.Containment (Netsync.handleDonePeerMsg ora s pid)) ∧
    (∀ pid : PeerId,
      ((Netsync.isSyncCandidate ora s.regTest pid = true ∧
          s.syncPeer = none) →
        ∀ q ∈ s.peerStates, q.2.requestedBlocks = (∅ : Finset Hash)) →
      Netsync.Containment (Netsync.handleNewPeerMsg ora s pid)) := by
  refine ⟨fetchHeaderBlocks_containment ora s hc,
    fun pickT pid tx => handleTxMsg_containment ora pickT s pid tx hc,
    fun pid headers => handleHeadersMsg_containment ora s pid headers hc,
    fun pid b hother => handleBlockMsg_containment ora s pid b hother hc,
    fun pickB pickT pid invVects hpB =>
      handleInvMsg_containment ora pickB pickT s pid invVects hpB hc,
    fun hemp => startSync_containment_of_empty ora s hemp,
    fun pid hdisj hsync =>
      handleDonePeerMsg_containment ora s pid hdisj hsync hc,
    fun pid hempty => handleNewPeerMsg_containment ora s pid hempty hc⟩

/-- Witness for c2_amended on the idle one-peer state. -/
theorem c2_witness :
    Netsync.Containment sIdle ∧
    (Netsync.Containment (Netsync.fetchHeaderBlocks oraBase sIdle).1 ∧
    (∀ (pickT : Finset Hash → Hash) (pid : PeerId) (tx : Tx),
      Netsync.Containment (Netsync.handleTxMsg oraBase pickT sIdle pid tx).1) ∧
    (∀ (pid : PeerId) (headers : List Header),
      Netsync.Containment
        (Netsync.handleHeadersMsg oraBase sIdle pid headers).1) ∧
    (∀ (pid : PeerId) (b : Block),
      (∀ q ∈ sIdle.peerStates, q.1 ≠ pid → b.hash ∉ q.2.requestedBlocks) →
      Netsync.Containment
        (Netsync.handleBlockMsg oraBase sIdle pid b).stateOf) ∧
    (∀ (pickB pickT : Finset Hash → Hash) (pid : PeerId)
        (invVects : List InvVect),
      (∀ m : Finset Hash,
        pickB m ∉ Netsync.allPeerBlocks sIdle.peerStates ∪
          Netsync.queueBlockHashes
            (Netsync.invFullQueue oraBase sIdle pid invVects)) →
      Netsync.Containment
        (Netsync.handleInvMsg oraBase pickB pickT sIdle pid invVects).1) ∧
    ((∀ q ∈ sIdle.peerStates, q.2.requestedBlocks = (∅ : Finset Hash)) →
      Netsync.Containment (Netsync.startSync oraBase sIdle)) ∧
    (∀ pid : PeerId,
      (∀ q ∈ sIdle.peerStates, ∀ r ∈ sIdle.peerStates, q.1 = pid →
        r.1 ≠ pid → Disjoint q.2.requestedBlocks r.2.requestedBlocks) →
      (sIdle.syncPeer = some pid → ∀ q ∈ sIdle.peerStates, q.1 ≠ pid →
        q.2.requestedBlocks = (∅ : Finset Hash)) →
      Netsync.Containment (Netsync.handleDonePeerMsg oraBase sIdle pid)) ∧
    (∀ pid : PeerId,
      ((Netsync.isSyncCandidate oraBase sIdle.regTest pid = true ∧
          sIdle.syncPeer = none) →
        ∀ q ∈ sIdle.peerStates, q.2.requestedBlocks = (∅ : Finset Hash)) →
      Netsync.Containment (Netsync.handleNewPeerMsg oraBase sIdle pid))) :=
  ⟨by decide, c2_amended oraBase sIdle (by decide)⟩

end ClaimC2

